import Mathlib

/-!
# Verification of the spur railway simulator core

Shallow embedding of the data model and coordination protocol of the spur
discrete-event railway simulator: tour traversal, the gated resource
admission (`SpurResource._do_put`), the `MultiBlockTrack` and
`MultiTrackStation` admission predicates, the `BlockExclusiveZone`
collection, the model uid registry, the component dictionary projection,
and a micro-step trace semantics of the train agent loop (`Train.run`
together with `Agent.transfer_to` and the component accept/release hooks).

Python integers are modelled as `Int`/`Nat`, Python `None` as `Option`,
Python dictionaries keyed by uid as association lists, and exceptions as
`Except`/`Option` or explicit panic actions.
-/

namespace Spur

/-! ## Route segments and tour traversal (spur/core/route.py, spur/core/tour.py) -/

/-- Projection of `RouteSegment`: the component it stands on (by uid) and the
optional scheduled arrival and departure.  The `prev`/`next` links of the
Python linked list are represented by list adjacency. -/
structure RSeg where
  comp : Nat
  arrival : Option Int
  departure : Option Int
deriving DecidableEq, Repr

/-- Inner worker of `Tour.traverse`: the first argument is the remaining
segments of the route currently being walked (the Python `route_segment`
cursor and its `next` chain), the second the remaining routes of the tour
(the Python `tour_segment.next` chain).  Mirrors the generator: all but the
last segment of the current route are yielded as they are; at the last
segment, if another route follows, its first segment's departure is copied
onto the bridging segment (`route_segment.departure = ...segments[0].departure`),
the bridge is yielded, and traversal continues from the second segment of the
following route (`route_segment.next = ...segments[1]`).  The Python code
raises on an empty following route and raises `IndexError` on a following
route with fewer than two segments; both are modelled by ending the yield
stream. -/
def tour_traverse_go : List RSeg → List (List RSeg) → List RSeg
  | [], _ => []
  | [last], [] => [last]
  | [last], next :: rest =>
    match next with
    | s0 :: s1 :: tl =>
      { last with departure := s0.departure } :: tour_traverse_go (s1 :: tl) rest
    | _ => []
  | s :: s1 :: tl, routes => s :: tour_traverse_go (s1 :: tl) routes
termination_by segs routes => segs.length + 2 * (routes.map List.length).sum + routes.length
decreasing_by
  all_goals simp [List.map_cons, List.sum_cons] <;> omega

/-- `Tour.traverse`: the sequence of route segments yielded to the agent for
a tour given as its list of routes (each route its list of segments).  An
empty tour raises `StopIteration`, modelled as the empty yield stream. -/
def tour_traverse : List (List RSeg) → List RSeg
  | [] => []
  | r :: rest => tour_traverse_go r rest

/-- Replace the departure of a segment (the effect of the Python assignment
`route_segment.departure = ...`). -/
def setDeparture (s : RSeg) (d : Option Int) : RSeg :=
  { s with departure := d }

/-- Spec-level description of merged traversal, written from the spec's
words: each non-final route contributes all its segments, with its last
(bridging) segment's departure taken from the first segment of the later
route; each later route contributes from its second segment onwards, so the
shared component is visited exactly once. -/
def mergedTraversal : List RSeg → List (List RSeg) → List RSeg
  | piece, [] => piece
  | piece, next :: rest =>
    piece.dropLast
      ++ [setDeparture (piece.getLastD ⟨0, none, none⟩) ((next.headD ⟨0, none, none⟩).departure)]
      ++ mergedTraversal (next.drop 1) rest

/-! ## MultiBlockTrack admission (spur/core/component.py) -/

/-- State of a `MultiBlockTrack` relevant to admission: the 2-D block
occupancy `_blocks[track][block]` (`some uid` when an agent occupies the
block) and the per-track recorded direction `_track_directions[track]`
(`some 1`, `some (-1)`, or `none` when unset). -/
structure MultiBlockTrackState where
  num_tracks : Nat
  num_blocks : Nat
  blocks : List (List (Option Nat))
  track_directions : List (Option Int)
deriving DecidableEq, Repr

/-- Well-formedness of the state as established by the constructor:
the 2-D array has `num_tracks` rows of `num_blocks` blocks each, and the
direction list has one entry per track. -/
def MultiBlockTrackState.WF (m : MultiBlockTrackState) : Prop :=
  m.blocks.length = m.num_tracks
    ∧ (∀ t ∈ m.blocks, t.length = m.num_blocks)
    ∧ m.track_directions.length = m.num_tracks

/-- `MultiBlockTrack._iterate_track_blocks`: the blocks of track `track` in
traversal order — indices `0, 1, …` for direction `+1` and
`num_blocks-1, …, 0` for direction `-1`. -/
def iterate_track_blocks (m : MultiBlockTrackState) (track : Nat) (direction : Int) :
    List (Option Nat) :=
  let row := (m.blocks.get? track).getD []
  let idxs : List Nat :=
    if direction = 1 then List.range m.num_blocks
    else (List.range m.num_blocks).reverse
  idxs.map (fun b => (row.get? b).getD none)

/-- The entry block of a track along a direction: the first element produced
by `_iterate_track_blocks` (the Python `next(...)`). -/
def entry_block (m : MultiBlockTrackState) (track : Nat) (direction : Int) : Option Nat :=
  ((iterate_track_blocks m track direction).head?).getD none

/-- Loop body of `MultiBlockTrack.can_accept_agent` over the enumerated
track directions: accept as soon as some track's direction matches the
agent's and its entry block is empty, or some track's direction is unset. -/
def mbt_scan_tracks (m : MultiBlockTrackState) (direction : Int) :
    Nat → List (Option Int) → Bool
  | _, [] => false
  | t, dir_t :: rest =>
    if dir_t = some direction ∧ entry_block m t direction = none then true
    else if dir_t = none then true
    else mbt_scan_tracks m direction (t + 1) rest

/-- `MultiBlockTrack.can_accept_agent`: reject outright when the collection
(or the default base predicate) rejects; otherwise scan the tracks.
`collection_permits` stands for `super().can_accept_agent(agent)` and
`direction` for `self._get_travel_direction(train)`. -/
def mbt_can_accept_agent (m : MultiBlockTrackState) (collection_permits : Bool)
    (direction : Int) : Bool :=
  if ¬collection_permits then false
  else mbt_scan_tracks m direction 0 m.track_directions

/-! ## BlockExclusiveZone (spur/core/collection.py) -/

/-- State of a `BlockExclusiveZone`: the `occupied` flag and the ordered
`wait_queue` of agent uids. -/
structure BezState where
  occupied : Bool
  wait_queue : List Nat
deriving DecidableEq, Repr

/-- The data of an agent consulted by the zone: its uid and the collection
uid of its current segment's component (`none` when the agent has no current
segment or the component has no collection). -/
structure AgentView where
  uid : Nat
  currentCollection : Option Nat
deriving DecidableEq, Repr

/-- `BlockExclusiveZone.add_to_wait_queue`. -/
def add_to_wait_queue (z : BezState) (uid : Nat) : BezState :=
  { z with wait_queue := z.wait_queue ++ [uid] }

/-- `BlockExclusiveZone.pop_from_wait_queue`: pop the head if one exists. -/
def pop_from_wait_queue (z : BezState) : BezState :=
  { z with wait_queue := z.wait_queue.drop 1 }

/-- `BlockExclusiveZone.can_accept_agent`.  Returns the boolean answer and
the updated zone state (the call enqueues an outside agent that is not yet
waiting).  `zuid` is the zone's uid. -/
def bez_can_accept_agent (z : BezState) (zuid : Nat) (a : AgentView) : Bool × BezState :=
  if a.currentCollection = some zuid then (true, z)
  else
    let z1 := if a.uid ∈ z.wait_queue then z else add_to_wait_queue z a.uid
    if ¬z1.occupied ∧ z1.wait_queue.head? = some a.uid then (true, z1)
    else (false, z1)

/-- `BlockExclusiveZone.accept_agent`.  Returns the updated state and
whether the call completed normally (`false` models the raised exception
when acceptance is impossible). -/
def bez_accept_agent (z : BezState) (zuid : Nat) (a : AgentView) : BezState × Bool :=
  if a.currentCollection = some zuid then (z, true)
  else if ¬z.occupied ∧ z.wait_queue.head? = some a.uid then
    ({ pop_from_wait_queue z with occupied := true }, true)
  else (z, false)

/-- `BlockExclusiveZone.release_agent`.  `nextCollection` is the collection
uid of the component of `agent.current_segment.next` (`none` when there is
no next segment or no collection).  The `process_queue` side call on the
head waiter's next component is a resource-level action and is modelled in
the train trace semantics. -/
def bez_release_agent (z : BezState) (zuid : Nat) (nextCollection : Option Nat) : BezState :=
  if nextCollection = some zuid then z
  else { z with occupied := false }

/-! ## MultiTrackStation stopping classification (spur/core/component.py) -/

/-- A route segment as seen by `MultiTrackStation._train_is_stopping`:
its departure and its successor. -/
inductive SegNode where
  | mk (departure : Option Int) (next : Option SegNode)

/-- The departure of a segment node. -/
def SegNode.departure : SegNode → Option Int
  | .mk d _ => d

/-- The successor of a segment node. -/
def SegNode.next : SegNode → Option SegNode
  | .mk _ n => n

/-- `MultiTrackStation._train_is_stopping`.  `currentSegment` is the train's
`current_segment`; `current` is the flag distinguishing the in-component
call (from `do`) from the pre-transfer call (from `can_accept_agent` and
`accept_agent`).  `none` models the `AttributeError` the Python code would
raise on a missing attribute chain. -/
def train_is_stopping (currentSegment : Option SegNode) (current : Bool) : Option Bool :=
  if current then
    match currentSegment with
    | some s => some s.departure.isSome
    | none => none
  else
    match currentSegment with
    | some s =>
      match s.next with
      | some n => some n.departure.isSome
      | none => none
    | none => some false

/-- `MultiTrackStation.can_accept_agent`: reject when the collection
rejects; otherwise a stopping train needs a free stopping track and a
bypassing train a free track of either kind.  `none` propagates the
modelled `AttributeError`. -/
def mts_can_accept_agent (collection_permits : Bool)
    (stopping_tracks bypass_tracks : List (Option Nat))
    (currentSegment : Option SegNode) : Option Bool :=
  if ¬collection_permits then some false
  else
    (train_is_stopping currentSegment false).map (fun stopping =>
      if stopping then decide (0 < stopping_tracks.count none)
      else decide (0 < bypass_tracks.count none + stopping_tracks.count none))

/-- The two dwell behaviours `MultiTrackStation.do` can choose. -/
inductive DwellKind where
  | burr
  | bypassTime
deriving DecidableEq, Repr

/-- The dwell selection made by `MultiTrackStation.do`: the Burr-distributed
dwell when `_train_is_stopping(train, current=True)`, the bypass time
otherwise. -/
def mts_do_kind (currentSegment : Option SegNode) : Option DwellKind :=
  (train_is_stopping currentSegment true).map (fun stopping =>
    if stopping then DwellKind.burr else DwellKind.bypassTime)

/-! ## Model uid registry (spur/core/model.py, spur/core/base.py) -/

/-- The uid-relevant part of `Model`: the keys of the `_trains` dictionary
and the `_tours` dictionary (name paired with an opaque tour payload). -/
structure ModelReg where
  trains : List String
  tours : List (String × Nat)
deriving DecidableEq, Repr

/-- `Model._uid_unique`. -/
def uid_unique (m : ModelReg) (uid : String) : Bool :=
  !(m.trains.contains uid || (m.tours.map Prod.fst).contains uid)

/-- `Model.add_train`: constructing the `Train` runs `BaseItem.__init__`,
which raises `NotUniqueIDError` when `_uid_unique` fails; on success the
train is recorded under its uid. -/
def add_train (m : ModelReg) (uid : String) : Except String ModelReg :=
  if uid_unique m uid = false then .error "NotUniqueIDError"
  else .ok { m with trains := m.trains ++ [uid] }

/-- The tour registration performed by
`Model.add_routes_and_tours_from_lists`: the plain dictionary assignment
`self._tours[t["name"]] = new_tour`, which overwrites any tour already
registered under the same name and never raises. -/
def set_tour (m : ModelReg) (name : String) (tour : Nat) : ModelReg :=
  if (m.tours.map Prod.fst).contains name then
    { m with tours := m.tours.map (fun p => if p.1 = name then (name, tour) else p) }
  else { m with tours := m.tours ++ [(name, tour)] }

/-! ## Gated resource admission: `SpurResource._do_put` (spur/core/base.py) -/

/-- The calls `_do_put` makes, in order, when it grants a request. -/
inductive RAction where
  | canAcceptCall
  | appendUser (uid : Nat)
  | collectionAccept (uid : Nat)
  | componentAccept (uid : Nat)
  | succeed (uid : Nat)
deriving DecidableEq, Repr

/-- The state touched by `SpurResource._do_put`: the resource's `users`
list and capacity, the keys of the owning component's `_agents` dictionary,
and the component-specific state `comp` consulted and mutated by
`can_accept_agent`. -/
structure ResState (σ : Type) where
  capacity : Nat
  users : List Nat
  agents : List Nat
  comp : σ

/-- `SpurResource._do_put`.  `can_accept` is the owning component's
`can_accept_agent` (it may mutate component state, as the
`BlockExclusiveZone` predicate enqueues waiters) and `coll_accept` the
collection's `accept_agent` hook when the component has a collection.
Admission requires spare capacity and the predicate; the predicate is not
even evaluated when capacity is exhausted (Python short-circuit).  On a
grant the event is appended to `users`, `accept_agent` runs (collection
hook first, then the `_agents` insert) and only then the request event is
succeeded.  Returns the new state, whether the request was granted, and
the trace of calls made. -/
def do_put {σ : Type} (can_accept : σ → Nat → Bool × σ)
    (coll_accept : Option (σ → Nat → σ)) (r : ResState σ) (agent : Nat) :
    ResState σ × Bool × List RAction :=
  if r.users.length < r.capacity then
    let p := can_accept r.comp agent
    if p.1 then
      let c2 := match coll_accept with | some f => f p.2 agent | none => p.2
      let agents2 := if agent ∈ r.agents then r.agents else r.agents ++ [agent]
      ({ r with users := r.users ++ [agent], agents := agents2, comp := c2 }, true,
        [.canAcceptCall, .appendUser agent]
          ++ (match coll_accept with
              | some _ => [RAction.collectionAccept agent]
              | none => [])
          ++ [.componentAccept agent, .succeed agent])
    else ({ r with comp := p.2 }, false, [.canAcceptCall])
  else (r, false, [])

/-! ## Component dictionary projection (spur/core/base.py `as_dict`) -/

/-- Python values stored in a component's `__dict__`. -/
inductive PyVal where
  | int (n : Int)
  | str (s : String)
  | pynone
  | jitterObj (name : String)
  | collectionRef (uid : Option Nat)
  | modelRef
  | loggerObj
  | resourceObj (capacity : Nat)
  | emptyDict
  | blocksVal (blocks : List (List (Option Nat)))
  | dirsVal (dirs : List (Option Int))
deriving DecidableEq, Repr

/-- The record produced by `BaseComponent.as_dict`. -/
structure ComponentRecord where
  type : String
  uid : String
  jitter : String
  args : List (String × PyVal)
deriving DecidableEq, Repr

/-- Python's `str.lstrip("_")`: drop all leading underscores. -/
def lstripUnderscore (s : String) : String :=
  String.mk (s.toList.dropWhile (fun ch => ch = '_'))

/-- `BaseComponent.as_dict` applied to a component with type name `typeName`
and instance dictionary `inst` (keys in insertion order): pop `_res`,
`_agents`, `simLog`, `logger` and `_model`; record the type, the uid, the
jitter object's type name; every remaining key, stripped of leading
underscores and not among the mandatory `uid`/`jitter`, goes into `args`.
`none` models the `KeyError` on a malformed instance. -/
def as_dict (typeName : String) (inst : List (String × PyVal)) : Option ComponentRecord :=
  let d := inst.filter (fun p =>
    ¬(p.1 = "_res" ∨ p.1 = "_agents" ∨ p.1 = "simLog" ∨ p.1 = "logger" ∨ p.1 = "_model"))
  match d.lookup "_uid", d.lookup "_jitter" with
  | some (.str uid), some (.jitterObj jname) =>
    some { type := typeName, uid := uid, jitter := jname,
           args := (d.filter (fun p =>
               ¬(lstripUnderscore p.1 = "uid" ∨ lstripUnderscore p.1 = "jitter"))).map
             (fun p => (lstripUnderscore p.1, p.2)) }
  | _, _ => none

/-- The instance dictionary of a `TimedTrack` after construction, keys in
assignment order: the `traversal_time` setter, then `ResourceComponent`
(`_res`), `BaseComponent` (`_agents`, `_jitter`, `_collection`), `BaseItem`
(`_model`, `_uid`, `logger`, `simLog`). -/
def timedTrackDict (uid : String) (traversal_time : Int) (capacity : Nat)
    (jitterName : String) (collection : Option Nat) : List (String × PyVal) :=
  [("_traversal_time", .int traversal_time),
   ("_res", .resourceObj capacity),
   ("_agents", .emptyDict),
   ("_jitter", .jitterObj jitterName),
   ("_collection", .collectionRef collection),
   ("_model", .modelRef),
   ("_uid", .str uid),
   ("logger", .loggerObj),
   ("simLog", .loggerObj)]

/-- The instance dictionary of a `MultiBlockTrack` after construction, keys
in assignment order (`_block_traversal_time` is `ceil(traversal_time /
num_blocks)`; the 2-D block array starts empty, directions unset). -/
def multiBlockTrackDict (uid : String) (num_tracks num_blocks : Nat)
    (block_traversal_time : Int) (jitterName : String) (collection : Option Nat) :
    List (String × PyVal) :=
  [("_num_tracks", .int num_tracks),
   ("_num_blocks", .int num_blocks),
   ("_block_traversal_time", .int block_traversal_time),
   ("_blocks", .blocksVal (List.replicate num_tracks (List.replicate num_blocks none))),
   ("_track_directions", .dirsVal (List.replicate num_tracks none)),
   ("_track_assignments", .emptyDict),
   ("_train_waiting_events", .emptyDict),
   ("_res", .resourceObj (num_tracks * num_blocks)),
   ("_agents", .emptyDict),
   ("_jitter", .jitterObj jitterName),
   ("_collection", .collectionRef collection),
   ("_model", .modelRef),
   ("_uid", .str uid),
   ("logger", .loggerObj),
   ("simLog", .loggerObj)]

/-- Reconstructing a `TimedTrack` from a record's `args` via its
constructor: keyword arguments must be among the constructor parameters
`traversal_time`, `capacity`, `collection` (a `TypeError` — modelled as
`none` — otherwise), `traversal_time` is required, `capacity` defaults
to 1 and `collection` to no collection. -/
def timedTrack_from_args (uid : String) (jitterName : String)
    (args : List (String × PyVal)) : Option (List (String × PyVal)) :=
  if args.all (fun p => p.1 = "traversal_time" ∨ p.1 = "capacity" ∨ p.1 = "collection") then
    match args.lookup "traversal_time" with
    | some (.int t) =>
      let capacity := match args.lookup "capacity" with
        | some (.int n) => n.toNat
        | _ => 1
      let collection := match args.lookup "collection" with
        | some (.collectionRef u) => u
        | _ => none
      some (timedTrackDict uid t capacity jitterName collection)
    | _ => none
  else none

/-- Reconstructing a `MultiBlockTrack` from a record's `args`: keyword
arguments must be among `num_tracks`, `num_blocks`, `traversal_time`,
`collection`, which are the constructor parameters. -/
def multiBlockTrack_from_args (uid : String) (jitterName : String)
    (args : List (String × PyVal)) : Option (List (String × PyVal)) :=
  if args.all (fun p =>
      p.1 = "num_tracks" ∨ p.1 = "num_blocks" ∨ p.1 = "traversal_time"
        ∨ p.1 = "collection") then
    match args.lookup "num_tracks", args.lookup "num_blocks",
        args.lookup "traversal_time" with
    | some (.int nt), some (.int nb), some (.int tt) =>
      let collection := match args.lookup "collection" with
        | some (.collectionRef u) => u
        | _ => none
      some (multiBlockTrackDict uid nt.toNat nb.toNat
        (if nb.toNat = 0 then 0 else (tt + nb - 1) / nb) jitterName collection)
    | _, _, _ => none
  else none

/-- Reconstruct a component instance from a record: dispatch on the
recorded type and call that constructor with the recorded args. -/
def reconstruct (r : ComponentRecord) : Option (List (String × PyVal)) :=
  if r.type = "TimedTrack" then timedTrack_from_args r.uid r.jitter r.args
  else if r.type = "MultiBlockTrack" then multiBlockTrack_from_args r.uid r.jitter r.args
  else none

/-! ## Train agent trace semantics (spur/core/train.py `Train.run`,
spur/core/base.py `Agent.transfer_to`, `BaseComponent.accept_agent` /
`release_agent`, `SpurResource._do_put`, spur/core/collection.py)

A micro-step trace of one train driving its tour.  Under the cooperative
single-threaded scheduling of the core, the effects of other trains on one
train's loop reduce to the time it spends queued at each resource, which
the configuration supplies as an oracle (`grantWait`), as it does the
duration of each component's `do` (`dwellTime`, abstracting jitter and the
per-type dwell formulas, none of which touch the occupant maps considered
here).  Every call that mutates an occupant map, the agent's
`current_segment`, or a `BlockExclusiveZone` is emitted as a trace event
together with the state after the call. -/

/-- A segment of the traversal produced by `Tour.traverse`: its component
(by index) and optional schedule. -/
structure Seg where
  comp : Nat
  arrival : Option Nat
  departure : Option Nat
deriving DecidableEq, Repr

/-- Configuration of a run: the traversal segments, the collection uid of
each component index, the agent's uid, and the two oracles. -/
structure TrainCfg where
  segs : List Seg
  coll : List (Option Nat)
  auid : Nat
  grantWait : Nat → Nat
  dwellTime : Nat → Nat

/-- The collection of component `c`. -/
def collOf (cfg : TrainCfg) (c : Nat) : Option Nat :=
  ((cfg.coll.get? c).getD none)

/-- The component of segment `i`. -/
def compAt (cfg : TrainCfg) (i : Nat) : Nat :=
  (((cfg.segs.get? i).map Seg.comp).getD 0)

/-- The mutable state of a run: the virtual clock, the agent's
`current_segment` (as a segment index), the set of components whose
`_agents` dictionary contains the agent (in insertion order), and the state
of every `BlockExclusiveZone` by collection uid. -/
structure TState where
  now : Nat
  currentSegment : Option Nat
  occ : List Nat
  bez : Nat → BezState

/-- Point update of the zone map. -/
def bezSet (f : Nat → BezState) (z : Nat) (s : BezState) : Nat → BezState :=
  fun z1 => if z1 = z then s else f z1

/-- Trace actions: each corresponds to one call or suspension in the
source. -/
inductive TAct where
  | timeoutArr
  | reqIssued (c : Nat)
  | collCanAccept (z : Nat)
  | userAppend (c : Nat)
  | collAccept (z : Nat)
  | acceptAgent (c : Nat) (snapshot : Option Nat)
  | reqSucceed (c : Nat)
  | collRelease (z : Nat)
  | releaseAgent (c : Nat)
  | setCurrent (i : Nat)
  | resRelease (c : Nat)
  | timeoutDwell
  | timeoutDep
  | tourDone
  | panic
deriving DecidableEq, Repr

/-- A trace event: the action, the segment index of the loop iteration
that produced it, and the state right after the action. -/
structure TEvt where
  act : TAct
  segIdx : Nat
  post : TState

/-- The agent as seen by a `BlockExclusiveZone`: its uid and the collection
of its current segment's component. -/
def agentViewOf (cfg : TrainCfg) (st : TState) : AgentView :=
  { uid := cfg.auid,
    currentCollection := st.currentSegment.bind (fun j => collOf cfg (compAt cfg j)) }

/-- `BaseComponent.accept_agent` for component `c` during loop iteration
`i`: notify the collection first (`BlockExclusiveZone.accept_agent`, whose
raise is modelled by a `panic` event that aborts the call), then insert the
agent into `_agents`.  The `acceptAgent` event records the agent's
`current_segment` at the moment of the call. -/
def comp_accept_agent (cfg : TrainCfg) (st : TState) (i : Nat) (c : Nat) :
    TState × List TEvt :=
  match collOf cfg c with
  | some z =>
    let pr := bez_accept_agent (st.bez z) z (agentViewOf cfg st)
    let st1 : TState := { st with bez := bezSet st.bez z pr.1 }
    if pr.2 then
      let st2 : TState := { st1 with occ := if c ∈ st1.occ then st1.occ else st1.occ ++ [c] }
      (st2, [⟨.collAccept z, i, st1⟩, ⟨.acceptAgent c st.currentSegment, i, st2⟩])
    else (st1, [⟨.panic, i, st1⟩])
  | none =>
    let st2 : TState := { st with occ := if c ∈ st.occ then st.occ else st.occ ++ [c] }
    (st2, [⟨.acceptAgent c st.currentSegment, i, st2⟩])

/-- `BaseComponent.release_agent` for component `c`: notify the collection
first (`BlockExclusiveZone.release_agent`, which inspects the collection of
the component of `agent.current_segment.next`, passed here as
`nextCollection`), then pop the agent from `_agents`. -/
def comp_release_agent (cfg : TrainCfg) (st : TState) (i : Nat) (c : Nat)
    (nextCollection : Option Nat) : TState × List TEvt :=
  match collOf cfg c with
  | some z =>
    let st1 : TState :=
      { st with bez := bezSet st.bez z (bez_release_agent (st.bez z) z nextCollection) }
    let st2 : TState := { st1 with occ := st1.occ.erase c }
    (st2, [⟨.collRelease z, i, st1⟩, ⟨.releaseAgent c, i, st2⟩])
  | none =>
    let st2 : TState := { st with occ := st.occ.erase c }
    (st2, [⟨.releaseAgent c, i, st2⟩])

/-- The admission work of `SpurResource._do_put` once the request reaches
the head of the queue with spare capacity: evaluate `can_accept_agent` (for
a component in a `BlockExclusiveZone` this may enqueue the agent in the
zone's wait queue; a `False` answer is modelled as a `panic` event because
for the traces considered here the single-agent predicate always passes),
append to `users`, run `accept_agent`, then succeed the request event. -/
def grant_request (cfg : TrainCfg) (st : TState) (i : Nat) (seg : Seg) :
    TState × List TEvt :=
  let c := seg.comp
  match collOf cfg c with
  | some z =>
    let pr := bez_can_accept_agent (st.bez z) z (agentViewOf cfg st)
    let st1 : TState := { st with bez := bezSet st.bez z pr.2 }
    if pr.1 then
      let ev1 : List TEvt := [⟨.collCanAccept z, i, st1⟩, ⟨.userAppend c, i, st1⟩]
      let pr2 := comp_accept_agent cfg st1 i c
      (pr2.1, ev1 ++ pr2.2 ++ [⟨.reqSucceed c, i, pr2.1⟩])
    else (st1, [⟨.panic, i, st1⟩])
  | none =>
    let ev1 : List TEvt := [⟨.userAppend c, i, st⟩]
    let pr2 := comp_accept_agent cfg st i c
    (pr2.1, ev1 ++ pr2.2 ++ [⟨.reqSucceed c, i, pr2.1⟩])

/-- `Agent.transfer_to`: release the previous component when attached
(passing the collection of the segment being entered as the collection of
`current_segment.next`), set `current_segment` to the new segment, then
accept into the new component. -/
def transfer_to (cfg : TrainCfg) (st : TState) (i : Nat) (seg : Seg) :
    TState × List TEvt :=
  let pr1 :=
    match st.currentSegment with
    | some j => comp_release_agent cfg st i (compAt cfg j) (collOf cfg seg.comp)
    | none => (st, [])
  let st2 : TState := { pr1.1 with currentSegment := some i }
  let pr3 := comp_accept_agent cfg st2 i seg.comp
  (pr3.1, pr1.2 ++ [⟨.setCurrent i, i, st2⟩] ++ pr3.2)

/-- One iteration of the `Train.run` loop for segment `i`: the arrival
hold (a timeout is yielded whenever `arrival` is set, even for a zero
wait), the resource request and queueing time, the admission
(`_do_put`), the transfer, the release of the previous segment's request
(`segment.prev`, present exactly when `i > 0`), the `do` dwell, and the
departure hold. -/
def run_seg (cfg : TrainCfg) (i : Nat) (seg : Seg) (st : TState) :
    TState × List TEvt :=
  let pr0 :=
    match seg.arrival with
    | some a =>
      let st1 : TState := { st with now := max st.now a }
      (st1, [(⟨.timeoutArr, i, st1⟩ : TEvt)])
    | none => (st, [])
  let st1 : TState := { pr0.1 with now := pr0.1.now + cfg.grantWait i }
  let ev1 : List TEvt := [⟨.reqIssued seg.comp, i, st1⟩]
  let pr2 := grant_request cfg st1 i seg
  let pr3 := transfer_to cfg pr2.1 i seg
  let ev4 : List TEvt :=
    if 0 < i then [⟨.resRelease (compAt cfg (i - 1)), i, pr3.1⟩] else []
  let st4 : TState := { pr3.1 with now := pr3.1.now + cfg.dwellTime i }
  let ev5 : List TEvt := [⟨.timeoutDwell, i, st4⟩]
  let pr6 :=
    match seg.departure with
    | some d =>
      let st5 : TState := { st4 with now := max st4.now d }
      (st5, [(⟨.timeoutDep, i, st5⟩ : TEvt)])
    | none => (st4, [])
  (pr6.1, pr0.2 ++ ev1 ++ pr2.2 ++ pr3.2 ++ ev4 ++ ev5 ++ pr6.2)

/-- The loop of `Train.run` over the remaining segments, `i` being the
index of the first remaining one. -/
def run_segs (cfg : TrainCfg) : Nat → List Seg → TState → TState × List TEvt
  | _, [], st => (st, [])
  | i, seg :: rest, st =>
    let pr1 := run_seg cfg i seg st
    let pr2 := run_segs cfg (i + 1) rest pr1.1
    (pr2.1, pr1.2 ++ pr2.2)

/-- The state at `Model.start`. -/
def initTState : TState :=
  { now := 0, currentSegment := none, occ := [], bez := fun _ => ⟨false, []⟩ }

/-- `Train.run` in full: traverse every segment, then release the final
segment's resource request (`self._current_segment.component.resource.release`)
and go idle.  An empty tour crashes on line 132 (`None` has no component),
modelled as a `panic` event. -/
def run_train (cfg : TrainCfg) : TState × List TEvt :=
  match cfg.segs with
  | [] => (initTState, [⟨.panic, 0, initTState⟩])
  | _ =>
    let pr := run_segs cfg 0 cfg.segs initTState
    let fin :=
      match pr.1.currentSegment with
      | some j =>
        [(⟨.resRelease (compAt cfg j), cfg.segs.length - 1, pr.1⟩ : TEvt),
         (⟨.tourDone, cfg.segs.length - 1, pr.1⟩ : TEvt)]
      | none => [(⟨.panic, cfg.segs.length - 1, pr.1⟩ : TEvt)]
    (pr.1, pr.2 ++ fin)

/-- The suspension-boundary events: states that other cooperative tasks can
observe while this train is suspended (timeouts, queued requests, the
resolved-but-not-yet-resumed request, and the idle state after the tour). -/
def observable (e : TEvt) : Bool :=
  match e.act with
  | .timeoutArr | .reqIssued _ | .reqSucceed _ | .timeoutDwell | .timeoutDep
  | .tourDone => true
  | _ => false

/-- Whether an event lies in the admission-to-transfer window (the request
has been granted, `accept_agent` has run on the new component, but the
train has not yet resumed to call `transfer_to`). -/
def inGrantWindow (e : TEvt) : Bool :=
  match e.act with
  | .reqSucceed _ => true
  | _ => false

/-- The action sequence of one loop iteration under the boundary
invariant, with the bridging data spelled out: this is what `run_seg`
emits when it starts from a well-formed boundary state. -/
def canonActs (cfg : TrainCfg) (i : Nat) (seg : Seg) : List TAct :=
  let c := seg.comp
  (match seg.arrival with | some _ => [TAct.timeoutArr] | none => [])
    ++ [.reqIssued c]
    ++ (match collOf cfg c with | some z => [TAct.collCanAccept z] | none => [])
    ++ [.userAppend c]
    ++ (match collOf cfg c with | some z => [TAct.collAccept z] | none => [])
    ++ [.acceptAgent c (if i = 0 then none else some (i - 1))]
    ++ [.reqSucceed c]
    ++ (if 0 < i then
          (match collOf cfg (compAt cfg (i - 1)) with
           | some zp => [TAct.collRelease zp]
           | none => [])
            ++ [TAct.releaseAgent (compAt cfg (i - 1))]
        else [])
    ++ [.setCurrent i]
    ++ (match collOf cfg c with | some z => [TAct.collAccept z] | none => [])
    ++ [.acceptAgent c (some i)]
    ++ (if 0 < i then [TAct.resRelease (compAt cfg (i - 1))] else [])
    ++ [.timeoutDwell]
    ++ (match seg.departure with | some _ => [TAct.timeoutDep] | none => [])

/-- The boundary invariant of the train loop, before processing segment
`i`: attached to segment `i-1` (to nothing when `i = 0`), present in
exactly that component's occupant map, all zone wait queues empty, and a
zone occupied exactly when the currently held component belongs to it. -/
def BoundaryInv (cfg : TrainCfg) (i : Nat) (st : TState) : Prop :=
  st.currentSegment = (if i = 0 then none else some (i - 1))
    ∧ st.occ = (if i = 0 then [] else [compAt cfg (i - 1)])
    ∧ (∀ z, (st.bez z).wait_queue = [])
    ∧ (∀ z, (st.bez z).occupied = true ↔ 0 < i ∧ collOf cfg (compAt cfg (i - 1)) = some z)

/-- The occupant-set shape of an observable event, as the corrected
presence invariant states it: in the grant window the agent sits in the
granted component's occupant map and still in the previous one (when there
is one); at every other observable point it sits in exactly the occupant
map of its current segment's component — and in none at all before its
first transfer. -/
def OccSpec (cfg : TrainCfg) (e : TEvt) : Prop :=
  if inGrantWindow e then
    ∀ x, x ∈ e.post.occ ↔
      (x = compAt cfg e.segIdx ∨ (0 < e.segIdx ∧ x = compAt cfg (e.segIdx - 1)))
  else
    e.post.occ = (match e.post.currentSegment with
      | some j => [compAt cfg j]
      | none => [])

/-- Recognizer for `acceptAgent` actions. -/
def isAcceptAct : TAct → Bool
  | .acceptAgent _ _ => true
  | _ => false

/-- Example configuration: two collection-free components in series, the
first segment with a scheduled arrival of 5. -/
def exCfg : TrainCfg :=
  { segs := [⟨0, some 5, none⟩, ⟨1, none, none⟩],
    coll := [], auid := 7, grantWait := fun _ => 0, dwellTime := fun _ => 10 }

/-- Example configuration: both components belong to `BlockExclusiveZone`
3, the second segment with a scheduled departure of 90. -/
def exCfgBez : TrainCfg :=
  { segs := [⟨0, none, none⟩, ⟨1, none, some 90⟩],
    coll := [some 3, some 3], auid := 7, grantWait := fun _ => 0, dwellTime := fun _ => 10 }

/-! ## Theorems -/

/-! ### C4: MultiBlockTrack admission predicate -/

theorem mbt_scan_tracks_iff (m : MultiBlockTrackState) (direction : Int) :
    ∀ (l : List (Option Int)) (k : Nat),
      mbt_scan_tracks m direction k l = true ↔
        ∃ j, j < l.length ∧
          ((l.get? j = some (some direction) ∧ entry_block m (k + j) direction = none)
            ∨ l.get? j = some none) := by
  intro l
  induction l with
  | nil => intro k; simp [mbt_scan_tracks]
  | cons hd tl ih =>
    intro k
    simp only [mbt_scan_tracks]
    by_cases h1 : hd = some direction ∧ entry_block m k direction = none
    · rw [if_pos h1]
      constructor
      · intro _
        exact ⟨0, by simp, Or.inl (by simpa using h1)⟩
      · intro _
        rfl
    · rw [if_neg h1]
      by_cases h2 : hd = none
      · subst h2
        rw [if_pos rfl]
        constructor
        · intro _
          exact ⟨0, by simp, Or.inr (by simp)⟩
        · intro _
          rfl
      · rw [if_neg h2]
        rw [ih (k + 1)]
        constructor
        · rintro ⟨j, hj, hcase⟩
          refine ⟨j + 1, by simpa using hj, ?_⟩
          simpa [Nat.add_comm, Nat.add_assoc, Nat.add_left_comm] using hcase
        · rintro ⟨j, hj, hcase⟩
          match j with
          | 0 =>
            exfalso
            simp only [List.get?] at hcase
            rcases hcase with ⟨ha, hb⟩ | hc
            · exact h1 ⟨by simpa using ha, by simpa using hb⟩
            · exact h2 (by simpa using hc)
          | j + 1 =>
            refine ⟨j, by simpa using hj, ?_⟩
            simpa [Nat.add_comm, Nat.add_assoc, Nat.add_left_comm] using hcase

/-- C4: `MultiBlockTrack.can_accept_agent` accepts exactly when the
collection permits and some track either travels in the agent's direction
with an empty entry block or has no recorded direction. -/
theorem c4_mbt_can_accept_agent_iff (m : MultiBlockTrackState)
    (collection_permits : Bool) (direction : Int)
    (hwf : m.WF) (hdir : direction = 1 ∨ direction = -1) (hnb : 0 < m.num_blocks) :
    mbt_can_accept_agent m collection_permits direction = true ↔
      (collection_permits = true ∧
        ∃ t, t < m.num_tracks ∧
          ((m.track_directions.get? t = some (some direction)
              ∧ entry_block m t direction = none)
            ∨ m.track_directions.get? t = some none)) := by
  obtain ⟨-, -, hlen⟩ := hwf
  unfold mbt_can_accept_agent
  by_cases hc : collection_permits
  · rw [if_neg (by simpa using hc)]
    rw [mbt_scan_tracks_iff m direction m.track_directions 0]
    simp only [hc, true_and, Nat.zero_add, hlen]
  · simp only [Bool.not_eq_true] at hc
    subst hc
    simp

/-- Witness for C4: a two-track, two-block state whose first track runs in
direction 1 with a free entry block admits a direction-1 agent. -/
theorem c4_witness :
    mbt_can_accept_agent
      ⟨2, 2, [[none, some 8], [some 9, some 10]], [some 1, some 1]⟩ true 1 = true
    ∧ (⟨2, 2, [[none, some 8], [some 9, some 10]], [some 1, some 1]⟩ :
        MultiBlockTrackState).WF := by
  constructor
  · have h := c4_mbt_can_accept_agent_iff
      ⟨2, 2, [[none, some 8], [some 9, some 10]], [some 1, some 1]⟩ true 1
      ⟨rfl, by decide, rfl⟩ (Or.inl rfl) (by decide)
    rw [h]
    exact ⟨rfl, 0, by decide, Or.inl (by decide)⟩
  · exact ⟨rfl, by decide, rfl⟩

/-! ### C10: BlockExclusiveZone can_accept_agent -/

/-- C10: the zone admission check is not pure: an outside agent not yet
waiting gets appended to the wait queue; repeated calls for a waiting agent
leave the queue unchanged (no duplicate, no reorder); the answer is `true`
exactly when the zone is unoccupied and the agent heads the (updated) wait
queue — or unconditionally when the agent's current segment already lies in
this zone. -/
theorem c10_bez_can_accept_agent_spec (z : BezState) (zuid : Nat) (a : AgentView) :
    (a.currentCollection = some zuid → bez_can_accept_agent z zuid a = (true, z))
    ∧ (a.currentCollection ≠ some zuid →
        (a.uid ∉ z.wait_queue →
          (bez_can_accept_agent z zuid a).2.wait_queue = z.wait_queue ++ [a.uid])
        ∧ (a.uid ∈ z.wait_queue →
          (bez_can_accept_agent z zuid a).2.wait_queue = z.wait_queue)
        ∧ (bez_can_accept_agent z zuid a).2.occupied = z.occupied
        ∧ ((bez_can_accept_agent z zuid a).1 = true ↔
            z.occupied = false
              ∧ (bez_can_accept_agent z zuid a).2.wait_queue.head? = some a.uid)) := by
  constructor
  · intro h
    simp [bez_can_accept_agent, h]
  · intro h
    by_cases hmem : a.uid ∈ z.wait_queue
    · refine ⟨fun hc => absurd hmem hc, fun _ => ?_, ?_, ?_⟩ <;>
        simp only [bez_can_accept_agent, if_neg h, if_pos hmem] <;>
        split <;>
        simp_all [Bool.not_eq_true] <;>
        tauto
    · refine ⟨fun _ => ?_, fun hc => absurd hc hmem, ?_, ?_⟩ <;>
        simp only [bez_can_accept_agent, if_neg h, if_neg hmem, add_to_wait_queue] <;>
        split <;>
        simp_all [Bool.not_eq_true] <;>
        tauto

/-- Witness for C10: an outside agent arriving at an empty, unoccupied zone
is enqueued and admitted. -/
theorem c10_witness :
    (bez_can_accept_agent ⟨false, []⟩ 9 ⟨5, none⟩).2.wait_queue = [5]
    ∧ (bez_can_accept_agent ⟨false, []⟩ 9 ⟨5, none⟩).1 = true := by
  have h := c10_bez_can_accept_agent_spec ⟨false, []⟩ 9 ⟨5, none⟩
  have hq : (bez_can_accept_agent ⟨false, []⟩ 9 ⟨5, none⟩).2.wait_queue = [5] := by
    simpa using (h.2 (by simp)).1 (by simp)
  refine ⟨hq, ?_⟩
  rw [(h.2 (by simp)).2.2.2]
  exact ⟨rfl, by rw [hq]; rfl⟩

/-! ### C5: MultiTrackStation stopping classification -/

/-- C5 counterexample: a train whose first segment is the station, with a
non-null departure (`departure = 10`).  The pre-transfer classification used
by `can_accept_agent` (`current_segment` still `None`) classifies it as
bypassing, and with every stopping track occupied but a bypass track free
the station admits it — although the claim's classification (non-null
departure ⇒ stopping) would require a free stopping track; once inside, the
`do` classification calls it stopping after all. -/
theorem c5_counterexample :
    train_is_stopping none false = some false
    ∧ (SegNode.mk (some 10) none).departure.isSome = true
    ∧ mts_can_accept_agent true [some 7] [none] none = some true
    ∧ train_is_stopping (some (SegNode.mk (some 10) none)) true = some true
    ∧ mts_do_kind (some (SegNode.mk (some 10) none)) = some DwellKind.burr :=
  ⟨rfl, rfl, rfl, rfl, rfl⟩

/-- C5 amended: the in-component classification (used by `do`) is stopping
iff the train's current segment has a non-null departure; the pre-transfer
classification (used by the admission predicate) reads the departure of the
segment *after* the train's current segment — the station's segment — when
the train has a current segment, but classifies a train visiting the
station as its first component as bypassing regardless of that segment's
departure. -/
theorem c5_amended (p n s : SegNode) (hnext : p.next = some n) :
    train_is_stopping (some s) true = some s.departure.isSome
    ∧ mts_do_kind (some s)
        = some (if s.departure.isSome then DwellKind.burr else DwellKind.bypassTime)
    ∧ train_is_stopping (some p) false = some n.departure.isSome
    ∧ train_is_stopping none false = some false
    ∧ (∀ (cp : Bool) (stl byl : List (Option Nat)),
        mts_can_accept_agent cp stl byl (some p)
          = some (cp && (if n.departure.isSome then decide (0 < stl.count none)
              else decide (0 < byl.count none + stl.count none))))
    ∧ (∀ (cp : Bool) (stl byl : List (Option Nat)),
        mts_can_accept_agent cp stl byl none
          = some (cp && decide (0 < byl.count none + stl.count none))) := by
  refine ⟨rfl, ?_, ?_, rfl, ?_, ?_⟩
  · simp [mts_do_kind, train_is_stopping]
  · simp [train_is_stopping, hnext]
  · intro cp stl byl
    cases cp with
    | false => simp [mts_can_accept_agent]
    | true => simp [mts_can_accept_agent, train_is_stopping, hnext]
  · intro cp stl byl
    cases cp with
    | false => simp [mts_can_accept_agent]
    | true => simp [mts_can_accept_agent, train_is_stopping]

/-- Witness for C5 amended: a previous segment whose successor (the station
segment) departs at 10 classifies as stopping pre-transfer, and in-component
with a departure classifies as stopping. -/
theorem c5_amended_witness :
    train_is_stopping (some (SegNode.mk none (some (SegNode.mk (some 10) none)))) false
      = some true
    ∧ mts_do_kind (some (SegNode.mk (some 10) none)) = some DwellKind.burr := by
  have h := c5_amended (SegNode.mk none (some (SegNode.mk (some 10) none)))
    (SegNode.mk (some 10) none) (SegNode.mk (some 10) none) rfl
  exact ⟨h.2.2.1, h.2.1⟩

/-! ### C6: uid uniqueness for trains and tours -/

/-- C6 counterexample: registering two tours under the same name does not
fail — the second silently replaces the first in the model's tour
dictionary. -/
theorem c6_counterexample :
    set_tour (⟨[], []⟩ : ModelReg) "T" 1 = ⟨[], [("T", 1)]⟩
    ∧ set_tour (set_tour (⟨[], []⟩ : ModelReg) "T" 1) "T" 2 = ⟨[], [("T", 2)]⟩ := by
  constructor <;> rfl

theorem set_tour_lookup_map (name : String) (t : Nat) :
    ∀ l : List (String × Nat), name ∈ l.map Prod.fst →
      ((l.map (fun p => if p.1 = name then (name, t) else p)).lookup name) = some t := by
  intro l
  induction l with
  | nil => simp
  | cons hd tl ih =>
    intro hc
    obtain ⟨k, v⟩ := hd
    by_cases h : k = name
    · subst h
      rw [List.map_cons,
        show (if ((k, v) : String × Nat).1 = k then (k, t) else (k, v)) = (k, t) from
          if_pos rfl]
      simp [List.lookup]
    · rw [List.map_cons,
        show (if ((k, v) : String × Nat).1 = name then (name, t) else (k, v)) = (k, v) from
          if_neg h]
      have hk : (name == k) = false := by
        simpa using fun hcontra => h hcontra.symm
      simp only [List.lookup, hk]
      apply ih
      rcases (by simpa using hc : name = k ∨ name ∈ tl.map Prod.fst) with h1 | h1
      · exact absurd h1.symm h
      · exact h1

theorem set_tour_lookup_append (name : String) (t : Nat) :
    ∀ l : List (String × Nat), name ∉ l.map Prod.fst →
      ((l ++ [(name, t)]).lookup name) = some t := by
  intro l
  induction l with
  | nil => simp [List.lookup]
  | cons hd tl ih =>
    intro hc
    obtain ⟨k, v⟩ := hd
    have h1 : ¬(name = k) := fun he => hc (by simp [he])
    have hk : (name == k) = false := by simpa using h1
    rw [List.cons_append]
    simp only [List.lookup, hk]
    exact ih (fun hm => hc (by simp [hm]))

/-- C6 amended: inserting two Agents with the same uid fails
deterministically with `NotUniqueIDError` (the second constructor call
raises), and an agent uid clashing with a registered tour name also fails;
but registering a second tour under an existing name never fails — it
overwrites the registered tour. -/
theorem c6_amended :
    (∀ (m m' : ModelReg) (uid : String),
      add_train m uid = .ok m' → add_train m' uid = .error "NotUniqueIDError")
    ∧ (∀ (m : ModelReg) (uid : String),
      (m.tours.map Prod.fst).contains uid = true →
        add_train m uid = .error "NotUniqueIDError")
    ∧ (∀ (m : ModelReg) (name : String) (t : Nat),
      ((set_tour m name t).tours).lookup name = some t) := by
  refine ⟨?_, ?_, ?_⟩
  · intro m m' uid h
    unfold add_train at h ⊢
    by_cases hu : uid_unique m uid = false
    · rw [if_pos hu] at h
      exact absurd h (by simp)
    · rw [if_neg hu] at h
      have hm : m' = { m with trains := m.trains ++ [uid] } := by
        simpa using h.symm
      subst hm
      have hcontain : (m.trains ++ [uid]).contains uid = true := by simp
      have hfalse : uid_unique { m with trains := m.trains ++ [uid] } uid = false := by
        unfold uid_unique
        rw [hcontain]
        simp
      rw [if_pos hfalse]
  · intro m uid h
    unfold add_train
    have hfalse : uid_unique m uid = false := by
      unfold uid_unique
      rw [h]
      simp
    rw [if_pos hfalse]
  · intro m name t
    unfold set_tour
    by_cases hc : ((m.tours.map Prod.fst).contains name) = true
    · rw [if_pos hc]
      exact set_tour_lookup_map name t m.tours (by simpa using hc)
    · rw [if_neg hc]
      exact set_tour_lookup_append name t m.tours (by
        intro hm
        exact hc (by simpa using hm))

/-- Witness for C6 amended: adding train "A" twice errors the second time;
a tour named "T" is found after registration. -/
theorem c6_amended_witness :
    add_train (⟨["A"], []⟩ : ModelReg) "A" = .error "NotUniqueIDError"
    ∧ ((set_tour (⟨[], []⟩ : ModelReg) "T" 4).tours).lookup "T" = some 4 := by
  constructor
  · exact c6_amended.1 ⟨[], []⟩ ⟨["A"], []⟩ "A" (by rfl)
  · exact c6_amended.2.2 ⟨[], []⟩ "T" 4

/-! ### C1: SpurResource._do_put admission -/

/-- C1: a request is granted exactly when `users` is strictly below
capacity and the owning component's `can_accept_agent` answers true; on a
grant the component's `accept_agent` (and through it the collection's, when
there is one) runs before the request event is succeeded; a rejected
request leaves `users` unchanged (no slot consumed). -/
theorem c1_do_put_spec {σ : Type} (can_accept : σ → Nat → Bool × σ)
    (coll_accept : Option (σ → Nat → σ)) (r : ResState σ) (agent : Nat) :
    ((do_put can_accept coll_accept r agent).2.1 = true ↔
      (r.users.length < r.capacity ∧ (can_accept r.comp agent).1 = true))
    ∧ ((do_put can_accept coll_accept r agent).2.1 = true →
        (do_put can_accept coll_accept r agent).1.users = r.users ++ [agent]
        ∧ ∃ i j, ((do_put can_accept coll_accept r agent).2.2).get? i
              = some (.componentAccept agent)
          ∧ ((do_put can_accept coll_accept r agent).2.2).get? j
              = some (.succeed agent)
          ∧ i < j
          ∧ (∀ f, coll_accept = some f →
              ∃ k, ((do_put can_accept coll_accept r agent).2.2).get? k
                  = some (.collectionAccept agent) ∧ k < j))
    ∧ ((do_put can_accept coll_accept r agent).2.1 = false →
        (do_put can_accept coll_accept r agent).1.users = r.users) := by
  by_cases hcap : r.users.length < r.capacity
  · by_cases hok : (can_accept r.comp agent).1 = true
    · cases coll_accept with
      | none =>
        refine ⟨by simp [do_put, hcap, hok], fun _ => ⟨by simp [do_put, hcap, hok], ?_⟩,
          by simp [do_put, hcap, hok]⟩
        refine ⟨2, 3, ?_, ?_, by omega, ?_⟩
        · simp [do_put, hcap, hok]
        · simp [do_put, hcap, hok]
        · intro f hf
          exact absurd hf (by simp)
      | some g =>
        refine ⟨by simp [do_put, hcap, hok], fun _ => ⟨by simp [do_put, hcap, hok], ?_⟩,
          by simp [do_put, hcap, hok]⟩
        refine ⟨3, 4, ?_, ?_, by omega, ?_⟩
        · simp [do_put, hcap, hok]
        · simp [do_put, hcap, hok]
        · intro f _
          exact ⟨2, by simp [do_put, hcap, hok], by omega⟩
    · have hok' : (can_accept r.comp agent).1 = false := by
        simpa using hok
      refine ⟨by simp [do_put, hcap, hok'], fun hg => ?_, by simp [do_put, hcap, hok']⟩
      exact absurd hg (by simp [do_put, hcap, hok'])
  · refine ⟨by simp [do_put, hcap], fun hg => ?_, by simp [do_put, hcap]⟩
    exact absurd hg (by simp [do_put, hcap])

/-- Witness for C1: a single-slot resource with an always-true predicate
and no collection grants agent 5, appending it to `users`. -/
theorem c1_witness :
    (do_put (fun (s : Unit) (_ : Nat) => (true, s)) none
        (⟨1, [], [], ()⟩ : ResState Unit) 5).2.1 = true
    ∧ (do_put (fun (s : Unit) (_ : Nat) => (true, s)) none
        (⟨1, [], [], ()⟩ : ResState Unit) 5).1.users = [5] := by
  have h := c1_do_put_spec (fun (s : Unit) (_ : Nat) => (true, s)) none
    (⟨1, [], [], ()⟩ : ResState Unit) 5
  have hg : (do_put (fun (s : Unit) (_ : Nat) => (true, s)) none
      (⟨1, [], [], ()⟩ : ResState Unit) 5).2.1 = true :=
    h.1.mpr ⟨by simp, rfl⟩
  exact ⟨hg, by simpa using (h.2.1 hg).1⟩

/-! ### C7: component dictionary projection round-trip -/

/-- C7 counterexample: a `MultiBlockTrack` projects to a record whose
`args` contain keys (`block_traversal_time`, `blocks`,
`track_directions`, `track_assignments`, `train_waiting_events`) that are
not parameters of any component constructor, so no component can be
reconstructed from the record (`TypeError` in Python, `none` here). -/
theorem c7_counterexample :
    (as_dict "MultiBlockTrack" (multiBlockTrackDict "1-2-A" 2 3 4 "NoJitter" none)).isSome
        = true
    ∧ ((as_dict "MultiBlockTrack"
        (multiBlockTrackDict "1-2-A" 2 3 4 "NoJitter" none)).bind reconstruct) = none := by
  exact ⟨rfl, rfl⟩

/-- C7 amended: the round-trip holds for components whose remaining
instance attributes are exactly constructor parameters and whose jitter is
reconstructible from its bare type name — e.g. a `TimedTrack` with
`NoJitter`: its record reconstructs, and the reconstruction projects to
the very same record.  The projection forgets the resource capacity (the
reconstruction has the default capacity 1) and the jitter arguments, so
equivalence holds only for the claim's `(uid, type, args, jitter)` tuple,
not for the full component. -/
theorem c7_amended (uid : String) (t : Int) (cap : Nat) (coll : Option Nat) :
    as_dict "TimedTrack" (timedTrackDict uid t cap "NoJitter" coll)
      = some (⟨"TimedTrack", uid, "NoJitter",
          [("traversal_time", .int t), ("collection", .collectionRef coll)]⟩ :
            ComponentRecord)
    ∧ reconstruct (⟨"TimedTrack", uid, "NoJitter",
          [("traversal_time", .int t), ("collection", .collectionRef coll)]⟩ :
            ComponentRecord)
        = some (timedTrackDict uid t 1 "NoJitter" coll)
    ∧ as_dict "TimedTrack" (timedTrackDict uid t 1 "NoJitter" coll)
        = some (⟨"TimedTrack", uid, "NoJitter",
            [("traversal_time", .int t), ("collection", .collectionRef coll)]⟩ :
              ComponentRecord) :=
  ⟨rfl, rfl, rfl⟩

/-! ### C3: tour traversal merges bridging components -/

theorem tour_traverse_go_nil : ∀ r : List RSeg, tour_traverse_go r [] = r := by
  intro r
  induction r with
  | nil => simp [tour_traverse_go]
  | cons hd tl ih =>
    cases tl with
    | nil => simp [tour_traverse_go]
    | cons h2 t2 =>
      rw [show tour_traverse_go (hd :: h2 :: t2) [] = hd :: tour_traverse_go (h2 :: t2) []
        from by simp [tour_traverse_go]]
      rw [ih]

theorem dropLast_append_getLastD {α : Type} :
    ∀ (l : List α), l ≠ [] → ∀ d : α, l.dropLast ++ [l.getLastD d] = l := by
  intro l
  induction l with
  | nil => intro h; exact absurd rfl h
  | cons hd tl ih =>
    intro _ d
    cases tl with
    | nil => simp
    | cons h2 t2 =>
      have := ih (by simp) hd
      simpa [List.getLastD_cons] using this

theorem tour_traverse_go_junction (next : List RSeg) (rest : List (List RSeg))
    (hlen : 2 ≤ next.length) :
    ∀ r0 : List RSeg, r0 ≠ [] →
      tour_traverse_go r0 (next :: rest)
        = r0.dropLast
            ++ [setDeparture (r0.getLastD ⟨0, none, none⟩)
                 ((next.headD ⟨0, none, none⟩).departure)]
            ++ tour_traverse_go (next.drop 1) rest := by
  intro r0
  induction r0 with
  | nil => intro h; exact absurd rfl h
  | cons hd tl ih =>
    intro _
    cases tl with
    | nil =>
      match next, hlen with
      | s0 :: s1 :: t2, _ =>
        simp [tour_traverse_go, setDeparture]
    | cons h2 t2 =>
      rw [show tour_traverse_go (hd :: h2 :: t2) (next :: rest)
          = hd :: tour_traverse_go (h2 :: t2) (next :: rest) from by
            simp [tour_traverse_go]]
      rw [ih (by simp)]
      simp [List.getLastD_cons]

theorem tour_traverse_eq_merged (rs : List (List RSeg)) :
    ∀ r0 : List RSeg, r0 ≠ [] → (∀ r ∈ rs, 2 ≤ r.length) →
      tour_traverse (r0 :: rs) = mergedTraversal r0 rs := by
  induction rs with
  | nil =>
    intro r0 _ _
    simp [tour_traverse, tour_traverse_go_nil, mergedTraversal]
  | cons next rest ih =>
    intro r0 h0 hlen
    have h2 : 2 ≤ next.length := hlen next (by simp)
    have hne : next.drop 1 ≠ [] := by
      cases next with
      | nil => simp at h2
      | cons a l =>
        cases l with
        | nil => simp at h2
        | cons b t => simp
    show tour_traverse_go r0 (next :: rest) = _
    rw [tour_traverse_go_junction next rest h2 r0 h0]
    rw [show mergedTraversal r0 (next :: rest)
        = r0.dropLast
            ++ [setDeparture (r0.getLastD ⟨0, none, none⟩)
                 ((next.headD ⟨0, none, none⟩).departure)]
            ++ mergedTraversal (next.drop 1) rest from by
          simp [mergedTraversal]]
    have := ih (next.drop 1) hne (fun r hr => hlen r (by simp [hr]))
    simp only [tour_traverse] at this
    rw [this]

theorem mergedTraversal_comps (rest : List (List RSeg)) :
    ∀ piece : List RSeg, piece ≠ [] → (∀ r ∈ rest, 2 ≤ r.length) →
      (mergedTraversal piece rest).map RSeg.comp
        = piece.map RSeg.comp
            ++ (rest.map (fun r => (r.drop 1).map RSeg.comp)).join := by
  induction rest with
  | nil =>
    intro piece _ _
    simp [mergedTraversal]
  | cons next rest ih =>
    intro piece hp hlen
    have h2 : 2 ≤ next.length := hlen next (by simp)
    have hne : next.drop 1 ≠ [] := by
      cases next with
      | nil => simp at h2
      | cons a l =>
        cases l with
        | nil => simp at h2
        | cons b t => simp
    rw [show mergedTraversal piece (next :: rest)
        = piece.dropLast
            ++ [setDeparture (piece.getLastD ⟨0, none, none⟩)
                 ((next.headD ⟨0, none, none⟩).departure)]
            ++ mergedTraversal (next.drop 1) rest from by
          simp [mergedTraversal]]
    rw [List.map_append, List.map_append]
    rw [ih (next.drop 1) hne (fun r hr => hlen r (by simp [hr]))]
    have hsplit : piece.dropLast.map RSeg.comp ++ [(piece.getLastD ⟨0, none, none⟩).comp]
        = piece.map RSeg.comp := by
      have := congrArg (List.map RSeg.comp) (dropLast_append_getLastD piece hp ⟨0, none, none⟩)
      simpa using this
    rw [show (List.map RSeg.comp
          [setDeparture (piece.getLastD ⟨0, none, none⟩)
            ((next.headD ⟨0, none, none⟩).departure)])
        = [(piece.getLastD ⟨0, none, none⟩).comp] from by simp [setDeparture]]
    rw [hsplit]
    simp

theorem count_join_zero (b : Nat) :
    ∀ L : List (List Nat), (∀ l ∈ L, l.count b = 0) → L.join.count b = 0 := by
  intro L
  induction L with
  | nil => simp
  | cons hd tl ih =>
    intro h
    rw [show (hd :: tl).join = hd ++ tl.join from rfl, List.count_append]
    rw [h hd (by simp), ih (fun l hl => h l (by simp [hl]))]

/-- C3: for a tour whose consecutive routes bridge on a shared component
and whose later routes have at least two segments, traversal equals the
spec-level merge, the bridging segment is yielded with the departure of the
later route's first segment and traversal continues with the later route's
second segment, and the bridging component is yielded exactly once (given
that it occurs only at the junction). -/
theorem c3_tour_traverse_merges (r0 next : List RSeg) (rest : List (List RSeg))
    (h0 : r0 ≠ []) (hlen : ∀ r ∈ next :: rest, 2 ≤ r.length)
    (b : Nat) (hb : (next.headD ⟨0, none, none⟩).comp = b)
    (hbridge : (r0.getLastD ⟨0, none, none⟩).comp = b)
    (hcount0 : (r0.map RSeg.comp).count b = 1)
    (hcount1 : (next.map RSeg.comp).count b = 1)
    (hcountrest : ∀ r ∈ rest, (r.map RSeg.comp).count b = 0) :
    tour_traverse (r0 :: next :: rest) = mergedTraversal r0 (next :: rest)
    ∧ tour_traverse (r0 :: next :: rest)
        = r0.dropLast
          ++ [setDeparture (r0.getLastD ⟨0, none, none⟩)
               ((next.headD ⟨0, none, none⟩).departure)]
          ++ tour_traverse (next.drop 1 :: rest)
    ∧ ((tour_traverse (r0 :: next :: rest)).map RSeg.comp).count b = 1 := by
  have hmerged := tour_traverse_eq_merged (next :: rest) r0 h0 hlen
  refine ⟨hmerged, ?_, ?_⟩
  · show tour_traverse_go r0 (next :: rest) = _
    rw [tour_traverse_go_junction next rest (hlen next (by simp)) r0 h0]
    rfl
  · rw [hmerged, mergedTraversal_comps (next :: rest) r0 h0 hlen]
    rw [List.count_append, hcount0]
    rw [List.map_cons,
      show ((next.drop 1).map RSeg.comp
            :: rest.map (fun r => (r.drop 1).map RSeg.comp)).join
          = (next.drop 1).map RSeg.comp
            ++ (rest.map (fun r => (r.drop 1).map RSeg.comp)).join from rfl,
      List.count_append]
    have hnext0 : ((next.drop 1).map RSeg.comp).count b = 0 := by
      match next, hlen next (by simp) with
      | h :: t, _ =>
        have hh : h.comp = b := by simpa using hb
        have ht : (h.comp :: t.map RSeg.comp).count b = 1 := by simpa using hcount1
        rw [List.count_cons] at ht
        simp only [hh, if_pos rfl] at ht
        simpa using ht
    have hrest0 : ((rest.map (fun r => (r.drop 1).map RSeg.comp)).join).count b = 0 := by
      apply count_join_zero
      intro l hl
      obtain ⟨r, hr, hrl⟩ := List.mem_map.mp hl
      subst hrl
      have hsub : List.Sublist ((r.drop 1).map RSeg.comp) (r.map RSeg.comp) :=
        (List.drop_sublist 1 r).map RSeg.comp
      have hle := hsub.count_le b
      rw [hcountrest r hr] at hle
      omega
    rw [hnext0, hrest0]

/-- Witness for C3: a two-route tour bridging on component 1; the merged
traversal visits component 1 once, with the later route's departure 500. -/
theorem c3_witness :
    ((tour_traverse [[⟨0, none, none⟩, ⟨1, none, some 100⟩],
        [⟨1, some 7, some 500⟩, ⟨2, none, none⟩]]).map RSeg.comp).count 1 = 1
    ∧ tour_traverse [[⟨0, none, none⟩, ⟨1, none, some 100⟩],
        [⟨1, some 7, some 500⟩, ⟨2, none, none⟩]]
      = [⟨0, none, none⟩, ⟨1, none, some 500⟩, ⟨2, none, none⟩] := by
  refine ⟨(c3_tour_traverse_merges
      [⟨0, none, none⟩, ⟨1, none, some 100⟩] [⟨1, some 7, some 500⟩, ⟨2, none, none⟩] []
      (by simp) (by intro r hr; simp at hr; subst hr; simp)
      1 rfl rfl (by decide) (by decide) (by simp)).2.2, ?_⟩
  have h := (c3_tour_traverse_merges
      [⟨0, none, none⟩, ⟨1, none, some 100⟩] [⟨1, some 7, some 500⟩, ⟨2, none, none⟩] []
      (by simp) (by intro r hr; simp at hr; subst hr; simp)
      1 rfl rfl (by decide) (by decide) (by simp)).2.1
  rw [h]
  simp [tour_traverse, tour_traverse_go, setDeparture]

/-! ### Trace lemmas for the train loop (C2, C8, C9) -/

theorem bezSet_same (f : Nat → BezState) (z : Nat) (s : BezState) :
    bezSet f z s z = s := by
  simp [bezSet]

theorem bezSet_other (f : Nat → BezState) (z : Nat) (s : BezState) (z1 : Nat)
    (h : z1 ≠ z) : bezSet f z s z1 = f z1 := by
  simp [bezSet, h]

theorem bezSet_bezSet (f : Nat → BezState) (z : Nat) (s s2 : BezState) :
    bezSet (bezSet f z s) z s2 = bezSet f z s2 := by
  funext z1
  by_cases h : z1 = z <;> simp [bezSet, h]

theorem bez_state_eta (b : BezState) (ho : b.occupied = false) (hq : b.wait_queue = []) :
    b = ⟨false, []⟩ := by
  cases b
  simp_all

theorem bez_state_eta_true (b : BezState) (ho : b.occupied = true) (hq : b.wait_queue = []) :
    b = ⟨true, []⟩ := by
  cases b
  simp_all

/-- Full description of `grant_request` from a state whose zone wait queues
are empty and whose zone occupancy matches the agent's current collection:
the component's entry in the occupant list is inserted, its zone (if any)
becomes occupied with an empty queue, and the emitted calls are the
admission sequence ending in the request's success; the only observable
event is the final `reqSucceed`, whose post state is the result state. -/
theorem grant_request_spec (cfg : TrainCfg) (st : TState) (i : Nat) (seg : Seg)
    (hq : ∀ z, (st.bez z).wait_queue = [])
    (hbo : ∀ z, ((st.bez z).occupied = true ↔
      (agentViewOf cfg st).currentCollection = some z)) :
    (grant_request cfg st i seg).1
      = { st with
          occ := if seg.comp ∈ st.occ then st.occ else st.occ ++ [seg.comp],
          bez := match collOf cfg seg.comp with
                 | some z => bezSet st.bez z ⟨true, []⟩
                 | none => st.bez }
    ∧ (grant_request cfg st i seg).2.map TEvt.act
      = (match collOf cfg seg.comp with
         | some z => [TAct.collCanAccept z]
         | none => [])
        ++ [.userAppend seg.comp]
        ++ (match collOf cfg seg.comp with
            | some z => [TAct.collAccept z]
            | none => [])
        ++ [.acceptAgent seg.comp st.currentSegment, .reqSucceed seg.comp]
    ∧ (∀ e ∈ (grant_request cfg st i seg).2, e.segIdx = i)
    ∧ (∀ e ∈ (grant_request cfg st i seg).2, observable e = true →
        e.post = (grant_request cfg st i seg).1 ∧ e.act = .reqSucceed seg.comp) := by
  rcases hz : collOf cfg seg.comp with _ | zz
  · refine ⟨?_, ?_, ?_, ?_⟩
    · simp [grant_request, comp_accept_agent, hz]
    · simp [grant_request, comp_accept_agent, hz]
    · simp only [grant_request, comp_accept_agent, hz, List.nil_append, List.cons_append,
        List.append_nil]
      intro e he
      simp only [List.mem_cons, List.not_mem_nil, or_false] at he
      rcases he with rfl | rfl | rfl <;> rfl
    · simp only [grant_request, comp_accept_agent, hz, List.nil_append, List.cons_append,
        List.append_nil]
      intro e he
      simp only [List.mem_cons, List.not_mem_nil, or_false] at he
      rcases he with rfl | rfl | rfl <;>
        simp [observable, grant_request, comp_accept_agent, hz]
  · have hstayd : Decidable
        ((st.currentSegment.bind fun j => collOf cfg (compAt cfg j)) = some zz) :=
      inferInstance
    by_cases hstay : (st.currentSegment.bind fun j => collOf cfg (compAt cfg j)) = some zz
    · have hzz : st.bez zz = ⟨true, []⟩ :=
        bez_state_eta_true _ ((hbo zz).mpr hstay) (hq zz)
      refine ⟨?_, ?_, ?_, ?_⟩
      · simp [grant_request, comp_accept_agent, bez_can_accept_agent, bez_accept_agent,
          agentViewOf, hz, hstay, hzz, bezSet_bezSet, bezSet_same]
      · simp [grant_request, comp_accept_agent, bez_can_accept_agent, bez_accept_agent,
          agentViewOf, hz, hstay, hzz, bezSet_bezSet, bezSet_same]
      · simp only [grant_request, comp_accept_agent, bez_can_accept_agent,
          bez_accept_agent, agentViewOf, hz, hstay, hzz, bezSet_bezSet, bezSet_same,
          if_pos rfl, if_true, List.nil_append, List.cons_append, List.append_nil]
        intro e he
        simp only [List.mem_cons, List.not_mem_nil, or_false] at he
        rcases he with rfl | rfl | rfl | rfl | rfl <;> rfl
      · simp only [grant_request, comp_accept_agent, bez_can_accept_agent,
          bez_accept_agent, agentViewOf, hz, hstay, hzz, bezSet_bezSet, bezSet_same,
          if_pos rfl, if_true, List.nil_append, List.cons_append, List.append_nil]
        intro e he
        simp only [List.mem_cons, List.not_mem_nil, or_false] at he
        rcases he with rfl | rfl | rfl | rfl | rfl <;>
          simp [observable, grant_request, comp_accept_agent, bez_can_accept_agent,
            bez_accept_agent, agentViewOf, hz, hstay, hzz, bezSet_bezSet, bezSet_same]
    · have hzz : st.bez zz = ⟨false, []⟩ :=
        bez_state_eta _ (by
          rcases hb : (st.bez zz).occupied with _ | _
          · rfl
          · exact absurd ((hbo zz).mp hb) hstay) (hq zz)
      refine ⟨?_, ?_, ?_, ?_⟩
      · simp [grant_request, comp_accept_agent, bez_can_accept_agent, bez_accept_agent,
          agentViewOf, add_to_wait_queue, pop_from_wait_queue, hz, hstay, hzz,
          bezSet_bezSet, bezSet_same]
      · simp [grant_request, comp_accept_agent, bez_can_accept_agent, bez_accept_agent,
          agentViewOf, add_to_wait_queue, pop_from_wait_queue, hz, hstay, hzz,
          bezSet_bezSet, bezSet_same]
      · intro e he
        simp only [grant_request, comp_accept_agent, bez_can_accept_agent,
          bez_accept_agent, agentViewOf, add_to_wait_queue, pop_from_wait_queue, hz,
          hstay, hzz, bezSet_bezSet, bezSet_same, if_neg hstay] at he
        simp at he
        rcases he with rfl | rfl | rfl | rfl | rfl <;> rfl
      · intro e he
        simp only [grant_request, comp_accept_agent, bez_can_accept_agent,
          bez_accept_agent, agentViewOf, add_to_wait_queue, pop_from_wait_queue, hz,
          hstay, hzz, bezSet_bezSet, bezSet_same, if_neg hstay] at he
        simp at he
        rcases he with rfl | rfl | rfl | rfl | rfl <;>
          simp [observable, grant_request, comp_accept_agent, bez_can_accept_agent,
            bez_accept_agent, agentViewOf, add_to_wait_queue, pop_from_wait_queue, hz,
            hstay, hzz, bezSet_bezSet, bezSet_same]

theorem bezSet_self (f : Nat → BezState) (z : Nat) : bezSet f z (f z) = f := by
  funext x
  by_cases h : x = z <;> simp [bezSet, h]

/-- Full description of `transfer_to`: the previous component (when
attached) is released — notifying its zone with the collection of the
segment being entered — the agent's `current_segment` moves to the new
segment, and the new component re-accepts the agent (a zone no-op, since
the agent's current segment now lies in the zone).  No emitted event is a
suspension point. -/
theorem transfer_to_spec (cfg : TrainCfg) (st : TState) (i : Nat) (seg : Seg)
    (hseg : cfg.segs.get? i = some seg) :
    (transfer_to cfg st i seg).1
      = { st with
          currentSegment := some i,
          occ := (let o1 := match st.currentSegment with
                    | some j => st.occ.erase (compAt cfg j)
                    | none => st.occ
                  if seg.comp ∈ o1 then o1 else o1 ++ [seg.comp]),
          bez := match st.currentSegment with
                 | some j =>
                   match collOf cfg (compAt cfg j) with
                   | some zp => bezSet st.bez zp
                       (bez_release_agent (st.bez zp) zp (collOf cfg seg.comp))
                   | none => st.bez
                 | none => st.bez }
    ∧ (transfer_to cfg st i seg).2.map TEvt.act
      = (match st.currentSegment with
         | some j =>
           (match collOf cfg (compAt cfg j) with
            | some zp => [TAct.collRelease zp]
            | none => [])
             ++ [TAct.releaseAgent (compAt cfg j)]
         | none => [])
        ++ [.setCurrent i]
        ++ (match collOf cfg seg.comp with
            | some z => [TAct.collAccept z]
            | none => [])
        ++ [.acceptAgent seg.comp (some i)]
    ∧ (∀ e ∈ (transfer_to cfg st i seg).2, e.segIdx = i)
    ∧ (∀ e ∈ (transfer_to cfg st i seg).2, observable e = false) := by
  have hseg2 : cfg.segs[i]? = some seg := by
    simpa [List.get?_eq_getElem?] using hseg
  have hcomp : compAt cfg i = seg.comp := by
    simp [compAt, List.get?_eq_getElem?, hseg2]
  have hstay2 : ∀ f : Nat → BezState, ∀ o : List Nat, ∀ nw : Nat,
      (agentViewOf cfg { now := nw, currentSegment := some i, occ := o, bez := f
        }).currentCollection = collOf cfg seg.comp := by
    intro f o nw
    simp [agentViewOf, hcomp]
  rcases hP : st.currentSegment with _ | j
  · rcases hz : collOf cfg seg.comp with _ | zz
    · refine ⟨?_, ?_, ?_, ?_⟩
      · simp [transfer_to, comp_accept_agent, hP, hz]
      · simp [transfer_to, comp_accept_agent, hP, hz]
      · intro e he
        simp only [transfer_to, comp_accept_agent, hP, hz] at he
        simp at he
        rcases he with rfl | rfl <;> rfl
      · intro e he
        simp only [transfer_to, comp_accept_agent, hP, hz] at he
        simp at he
        rcases he with rfl | rfl <;> simp [observable]
    · refine ⟨?_, ?_, ?_, ?_⟩
      · simp [transfer_to, comp_accept_agent, bez_accept_agent, hP, hz, hstay2,
          bezSet_self]
      · simp [transfer_to, comp_accept_agent, bez_accept_agent, hP, hz, hstay2,
          bezSet_self]
      · intro e he
        simp only [transfer_to, comp_accept_agent, bez_accept_agent, hP, hz] at he
        simp [hstay2, bezSet_self, hz] at he
        rcases he with rfl | rfl | rfl <;> rfl
      · intro e he
        simp only [transfer_to, comp_accept_agent, bez_accept_agent, hP, hz] at he
        simp [hstay2, bezSet_self, hz] at he
        rcases he with rfl | rfl | rfl <;> simp [observable]
  · rcases hzp : collOf cfg (compAt cfg j) with _ | zp
    · rcases hz : collOf cfg seg.comp with _ | zz
      · refine ⟨?_, ?_, ?_, ?_⟩
        · simp [transfer_to, comp_accept_agent, comp_release_agent, hP, hz, hzp]
        · simp [transfer_to, comp_accept_agent, comp_release_agent, hP, hz, hzp]
        · intro e he
          simp only [transfer_to, comp_accept_agent, comp_release_agent, hP, hz, hzp] at he
          simp at he
          rcases he with rfl | rfl | rfl <;> rfl
        · intro e he
          simp only [transfer_to, comp_accept_agent, comp_release_agent, hP, hz, hzp] at he
          simp at he
          rcases he with rfl | rfl | rfl <;> simp [observable]
      · refine ⟨?_, ?_, ?_, ?_⟩
        · simp [transfer_to, comp_accept_agent, comp_release_agent, bez_accept_agent,
            hP, hz, hzp, hstay2, bezSet_self]
        · simp [transfer_to, comp_accept_agent, comp_release_agent, bez_accept_agent,
            hP, hz, hzp, hstay2, bezSet_self]
        · intro e he
          simp only [transfer_to, comp_accept_agent, comp_release_agent,
            bez_accept_agent, hP, hz, hzp] at he
          simp [hstay2, bezSet_self, hz] at he
          rcases he with rfl | rfl | rfl | rfl <;> rfl
        · intro e he
          simp only [transfer_to, comp_accept_agent, comp_release_agent,
            bez_accept_agent, hP, hz, hzp] at he
          simp [hstay2, bezSet_self, hz] at he
          rcases he with rfl | rfl | rfl | rfl <;> simp [observable]
    · rcases hz : collOf cfg seg.comp with _ | zz
      · refine ⟨?_, ?_, ?_, ?_⟩
        · simp [transfer_to, comp_accept_agent, comp_release_agent, hP, hz, hzp]
        · simp [transfer_to, comp_accept_agent, comp_release_agent, hP, hz, hzp]
        · intro e he
          simp only [transfer_to, comp_accept_agent, comp_release_agent, hP, hz, hzp] at he
          simp at he
          rcases he with rfl | rfl | rfl | rfl <;> rfl
        · intro e he
          simp only [transfer_to, comp_accept_agent, comp_release_agent, hP, hz, hzp] at he
          simp at he
          rcases he with rfl | rfl | rfl | rfl <;> simp [observable]
      · refine ⟨?_, ?_, ?_, ?_⟩
        · simp [transfer_to, comp_accept_agent, comp_release_agent, bez_accept_agent,
            hP, hz, hzp, hstay2, bezSet_self]
        · simp [transfer_to, comp_accept_agent, comp_release_agent, bez_accept_agent,
            hP, hz, hzp, hstay2, bezSet_self]
        · intro e he
          simp only [transfer_to, comp_accept_agent, comp_release_agent,
            bez_accept_agent, hP, hz, hzp] at he
          simp [hstay2, bezSet_self, hz] at he
          rcases he with rfl | rfl | rfl | rfl | rfl <;> rfl
        · intro e he
          simp only [transfer_to, comp_accept_agent, comp_release_agent,
            bez_accept_agent, hP, hz, hzp] at he
          simp [hstay2, bezSet_self, hz] at he
          rcases he with rfl | rfl | rfl | rfl | rfl <;> simp [observable]



theorem forall_mem_append_evt {P : TEvt → Prop} {l1 l2 : List TEvt}
    (h1 : ∀ e ∈ l1, P e) (h2 : ∀ e ∈ l2, P e) : ∀ e ∈ l1 ++ l2, P e := by
  intro e he
  rcases List.mem_append.mp he with h | h
  · exact h1 e h
  · exact h2 e h

theorem BInv_succ (cfg : TrainCfg) (i : Nat) (nw : Nat) (cur : Option Nat)
    (occ : List Nat) (bz : Nat → BezState)
    (h1 : cur = some i) (h2 : occ = [compAt cfg i])
    (h3 : ∀ z, (bz z).wait_queue = [])
    (h4 : ∀ z, ((bz z).occupied = true ↔ collOf cfg (compAt cfg i) = some z)) :
    BoundaryInv cfg (i + 1) ⟨nw, cur, occ, bz⟩ := by
  refine ⟨by simp [h1], by simp [h2], h3, fun z => ?_⟩
  rw [show (i + 1 - 1) = i from by omega]
  simpa using h4 z

theorem run_seg_master0 (cfg : TrainCfg) (seg : Seg) (st : TState)
    (hseg : cfg.segs.get? 0 = some seg)
    (hinv : BoundaryInv cfg 0 st) :
    BoundaryInv cfg 1 (run_seg cfg 0 seg st).1
    ∧ (run_seg cfg 0 seg st).2.map TEvt.act = canonActs cfg 0 seg
    ∧ (∀ e ∈ (run_seg cfg 0 seg st).2, e.segIdx = 0)
    ∧ (∀ e ∈ (run_seg cfg 0 seg st).2, observable e = true → OccSpec cfg e) := by
  obtain ⟨hcur, hocc, hq, hbo⟩ := hinv
  have hseg2 : cfg.segs[0]? = some seg := by simpa [List.get?_eq_getElem?] using hseg
  have hcomp : compAt cfg 0 = seg.comp := by simp [compAt, List.get?_eq_getElem?, hseg2]
  have hcur0 : st.currentSegment = none := by simpa using hcur
  have hocc0 : st.occ = [] := by simpa using hocc
  have hbo2 : ∀ (nw : Nat) (z : Nat), ((st.bez z).occupied = true ↔
      (agentViewOf cfg (⟨nw, none, [], st.bez⟩ : TState)).currentCollection = some z) := by
    intro nw z
    rw [hbo z]
    simp [agentViewOf]
  have hg1 := fun nw => (grant_request_spec cfg ⟨nw, none, [], st.bez⟩ 0 seg hq (hbo2 nw)).1
  have hg2 := fun nw => (grant_request_spec cfg ⟨nw, none, [], st.bez⟩ 0 seg hq (hbo2 nw)).2.1
  have hg3 := fun nw => (grant_request_spec cfg ⟨nw, none, [], st.bez⟩ 0 seg hq (hbo2 nw)).2.2.1
  have hg4 := fun nw => (grant_request_spec cfg ⟨nw, none, [], st.bez⟩ 0 seg hq (hbo2 nw)).2.2.2
  have ht1 := fun nw P O bz => (transfer_to_spec cfg ⟨nw, P, O, bz⟩ 0 seg hseg).1
  have ht2 := fun nw P O bz => (transfer_to_spec cfg ⟨nw, P, O, bz⟩ 0 seg hseg).2.1
  have ht3 := fun nw P O bz => (transfer_to_spec cfg ⟨nw, P, O, bz⟩ 0 seg hseg).2.2.1
  have ht4 := fun nw P O bz => (transfer_to_spec cfg ⟨nw, P, O, bz⟩ 0 seg hseg).2.2.2
  have hgocc : ∀ nw, ∀ e ∈ (grant_request cfg (⟨nw, none, [], st.bez⟩ : TState) 0 seg).2,
      observable e = true → OccSpec cfg e := by
    intro nw e he hob
    obtain ⟨hpost, hact⟩ := hg4 nw e he hob
    have hidx := hg3 nw e he
    rcases hz : collOf cfg seg.comp with _ | zz <;>
      (rw [hg1 nw] at hpost
       simp [hz] at hpost
       simp [OccSpec, inGrantWindow, hact, hpost, hidx, hcomp])
  have htocc : ∀ nw P O bz, ∀ e ∈ (transfer_to cfg (⟨nw, P, O, bz⟩ : TState) 0 seg).2,
      observable e = true → OccSpec cfg e := by
    intro nw P O bz e he hob
    exact absurd (ht4 nw P O bz e he) (by simp [hob])
  rcases hz : collOf cfg seg.comp with _ | zz <;>
    refine ⟨?_, ?_, ?_, ?_⟩
  · rcases harr : seg.arrival with _ | a <;>
      rcases hdep : seg.departure with _ | d <;>
      (simp only [run_seg, harr, hdep, hcur0, hocc0]
       simp only [hg1, hz, ht1]
       refine BInv_succ cfg 0 _ _ _ _ rfl (by simp [hcomp]) hq ?_
       intro z
       rw [hbo z, hcomp, hz]
       simp)
  · rcases harr : seg.arrival with _ | a <;>
      rcases hdep : seg.departure with _ | d <;>
      simp [run_seg, harr, hdep, hcur0, hocc0, canonActs, hg1, hg2, ht2, hz]
  · rcases harr : seg.arrival with _ | a <;>
      rcases hdep : seg.departure with _ | d <;>
      (intro e he
       simp only [run_seg, harr, hdep, hcur0, hocc0] at he
       simp [hg1, hz] at he
       casesm* _ ∨ _ <;>
         first
           | exact hg3 _ e ‹_›
           | exact ht3 _ _ _ _ e ‹_›
           | (subst_vars; rfl))
  · rcases harr : seg.arrival with _ | a <;>
      rcases hdep : seg.departure with _ | d <;>
      (intro e he
       simp only [run_seg, harr, hdep, hcur0, hocc0] at he
       simp [hg1, hz, ht1] at he
       casesm* _ ∨ _ <;>
         first
           | exact hgocc _ e ‹_›
           | exact htocc _ _ _ _ e ‹_›
           | (subst_vars
              intro hob
              simp [OccSpec, inGrantWindow, hcomp, ht1, hz]))
  · rcases harr : seg.arrival with _ | a <;>
      rcases hdep : seg.departure with _ | d <;>
      (simp only [run_seg, harr, hdep, hcur0, hocc0]
       simp only [hg1, hz, ht1]
       refine BInv_succ cfg 0 _ _ _ _ rfl (by simp [hcomp]) ?_ ?_
       · intro z
         by_cases hzzz : z = zz
         · subst hzzz
           simp [bezSet_same]
         · simp [bezSet_other _ _ _ _ hzzz, hq]
       · intro z
         by_cases hzzz : z = zz
         · subst hzzz
           simp [bezSet_same, hcomp, hz]
         · simp only [bezSet_other _ _ _ _ hzzz]
           rw [hbo z, hcomp, hz]
           simp
           intro hcon
           exact absurd hcon.symm hzzz)
  · rcases harr : seg.arrival with _ | a <;>
      rcases hdep : seg.departure with _ | d <;>
      simp [run_seg, harr, hdep, hcur0, hocc0, canonActs, hg1, hg2, ht2, hz]
  · rcases harr : seg.arrival with _ | a <;>
      rcases hdep : seg.departure with _ | d <;>
      (intro e he
       simp only [run_seg, harr, hdep, hcur0, hocc0] at he
       simp [hg1, hz] at he
       casesm* _ ∨ _ <;>
         first
           | exact hg3 _ e ‹_›
           | exact ht3 _ _ _ _ e ‹_›
           | (subst_vars; rfl))
  · rcases harr : seg.arrival with _ | a <;>
      rcases hdep : seg.departure with _ | d <;>
      (intro e he
       simp only [run_seg, harr, hdep, hcur0, hocc0] at he
       simp [hg1, hz, ht1] at he
       casesm* _ ∨ _ <;>
         first
           | exact hgocc _ e ‹_›
           | exact htocc _ _ _ _ e ‹_›
           | (subst_vars
              intro hob
              simp [OccSpec, inGrantWindow, hcomp, ht1, hz]))


set_option maxHeartbeats 1600000 in
theorem run_seg_masterS (cfg : TrainCfg) (p : Nat) (seg : Seg) (st : TState)
    (hseg : cfg.segs.get? (p + 1) = some seg)
    (hinv : BoundaryInv cfg (p + 1) st) :
    BoundaryInv cfg (p + 2) (run_seg cfg (p + 1) seg st).1
    ∧ (run_seg cfg (p + 1) seg st).2.map TEvt.act = canonActs cfg (p + 1) seg
    ∧ (∀ e ∈ (run_seg cfg (p + 1) seg st).2, e.segIdx = p + 1)
    ∧ (∀ e ∈ (run_seg cfg (p + 1) seg st).2, observable e = true → OccSpec cfg e) := by
  obtain ⟨hcur, hocc, hq, hbo⟩ := hinv
  have hseg2 : cfg.segs[p + 1]? = some seg := by simpa [List.get?_eq_getElem?] using hseg
  have hcomp : compAt cfg (p + 1) = seg.comp := by
    simp [compAt, List.get?_eq_getElem?, hseg2]
  have hcur0 : st.currentSegment = some p := by simpa using hcur
  have hocc0 : st.occ = [compAt cfg p] := by simpa using hocc
  have hbo0 : ∀ z, ((st.bez z).occupied = true ↔ collOf cfg (compAt cfg p) = some z) := by
    intro z
    rw [hbo z]
    simp
  have hbo2 : ∀ (nw : Nat) (z : Nat), ((st.bez z).occupied = true ↔
      (agentViewOf cfg
        (⟨nw, some p, [compAt cfg p], st.bez⟩ : TState)).currentCollection = some z) := by
    intro nw z
    rw [hbo0 z]
    simp [agentViewOf]
  have hg1 := fun nw => (grant_request_spec cfg ⟨nw, some p, [compAt cfg p], st.bez⟩
    (p + 1) seg hq (hbo2 nw)).1
  have hg2 := fun nw => (grant_request_spec cfg ⟨nw, some p, [compAt cfg p], st.bez⟩
    (p + 1) seg hq (hbo2 nw)).2.1
  have hg3 := fun nw => (grant_request_spec cfg ⟨nw, some p, [compAt cfg p], st.bez⟩
    (p + 1) seg hq (hbo2 nw)).2.2.1
  have hg4 := fun nw => (grant_request_spec cfg ⟨nw, some p, [compAt cfg p], st.bez⟩
    (p + 1) seg hq (hbo2 nw)).2.2.2
  have ht1 := fun nw P O bz => (transfer_to_spec cfg ⟨nw, P, O, bz⟩ (p + 1) seg hseg).1
  have ht2 := fun nw P O bz => (transfer_to_spec cfg ⟨nw, P, O, bz⟩ (p + 1) seg hseg).2.1
  have ht3 := fun nw P O bz => (transfer_to_spec cfg ⟨nw, P, O, bz⟩ (p + 1) seg hseg).2.2.1
  have ht4 := fun nw P O bz => (transfer_to_spec cfg ⟨nw, P, O, bz⟩ (p + 1) seg hseg).2.2.2
  have hgocc : ∀ nw, ∀ e ∈ (grant_request cfg
      (⟨nw, some p, [compAt cfg p], st.bez⟩ : TState) (p + 1) seg).2,
      observable e = true → OccSpec cfg e := by
    intro nw e he hob
    obtain ⟨hpost, hact⟩ := hg4 nw e he hob
    have hidx := hg3 nw e he
    rcases hz : collOf cfg seg.comp with _ | zz <;>
      (rw [hg1 nw] at hpost
       simp only [hz] at hpost
       by_cases hcp : seg.comp = compAt cfg p <;>
         (simp [hcp] at hpost
          simp [OccSpec, inGrantWindow, hact, hpost, hidx, hcomp, hcp] <;>
            (intro x
             constructor
             · rintro (rfl | rfl) <;> simp [hcp]
             · rintro (rfl | rfl) <;> simp [hcp])))
  have htocc : ∀ nw P O bz, ∀ e ∈ (transfer_to cfg (⟨nw, P, O, bz⟩ : TState)
      (p + 1) seg).2, observable e = true → OccSpec cfg e := by
    intro nw P O bz e he hob
    exact absurd (ht4 nw P O bz e he) (by simp [hob])
  have hoccfin : ∀ O1 : List Nat,
      O1 = (if seg.comp ∈ [compAt cfg p] then [compAt cfg p]
            else [compAt cfg p] ++ [seg.comp]) →
      (if seg.comp ∈ O1.erase (compAt cfg p) then O1.erase (compAt cfg p)
       else O1.erase (compAt cfg p) ++ [seg.comp]) = [compAt cfg (p + 1)] := by
    intro O1 hO1
    subst hO1
    by_cases hcp : seg.comp = compAt cfg p <;> simp [hcp, hcomp]
  rcases hz : collOf cfg seg.comp with _ | zz <;>
    rcases hzp : collOf cfg (compAt cfg p) with _ | zp <;>
    refine ⟨?_, ?_, ?_, ?_⟩
  · rcases harr : seg.arrival with _ | a <;>
      rcases hdep : seg.departure with _ | d <;>
      (simp only [run_seg, harr, hdep, hcur0, hocc0]
       simp only [hg1, hz, ht1, hzp]
       refine BInv_succ cfg (p + 1) _ _ _ _ rfl
         (by by_cases hcp : seg.comp = compAt cfg p <;> simp [hcp, hcomp]) hq ?_
       intro z
       simp [hbo0, hzp, hcomp, hz])
  · rcases harr : seg.arrival with _ | a <;>
      rcases hdep : seg.departure with _ | d <;>
      simp [run_seg, harr, hdep, hcur0, hocc0, canonActs, hg1, hg2, ht2, hz, hzp]
  · rcases harr : seg.arrival with _ | a <;>
      rcases hdep : seg.departure with _ | d <;>
      (intro e he
       simp only [run_seg, harr, hdep, hcur0, hocc0] at he
       simp [hg1, hz, hzp] at he
       casesm* _ ∨ _ <;>
         first
           | exact hg3 _ e ‹_›
           | exact ht3 _ _ _ _ e ‹_›
           | (subst_vars; rfl))
  · rcases harr : seg.arrival with _ | a <;>
      rcases hdep : seg.departure with _ | d <;>
      (intro e he
       simp only [run_seg, harr, hdep, hcur0, hocc0] at he
       simp [hg1, hz, hzp, ht1] at he
       casesm* _ ∨ _ <;>
         first
           | exact hgocc _ e ‹_›
           | exact htocc _ _ _ _ e ‹_›
           | (subst_vars
              intro hob
              by_cases hcp : seg.comp = compAt cfg p <;>
                simp [OccSpec, inGrantWindow, hcomp, hcp, hz, hzp]))
  · rcases harr : seg.arrival with _ | a <;>
      rcases hdep : seg.departure with _ | d <;>
      (simp only [run_seg, harr, hdep, hcur0, hocc0]
       simp only [hg1, hz, ht1, hzp]
       refine BInv_succ cfg (p + 1) _ _ _ _ rfl
         (by by_cases hcp : seg.comp = compAt cfg p <;> simp [hcp, hcomp]) ?_ ?_
       · intro z
         by_cases hzzp : z = zp
         · subst hzzp
           simp [bezSet_same, bez_release_agent, hq]
         · simp [bezSet_other _ _ _ _ hzzp, hq]
       · intro z
         by_cases hzzp : z = zp
         · subst hzzp
           simp [bezSet_same, bez_release_agent, hcomp, hz]
         · simp only [bezSet_other _ _ _ _ hzzp]
           rw [hbo0 z, hzp, hcomp, hz]
           exact iff_of_false (fun hcon => hzzp (by simpa using hcon.symm)) (by simp))
  · rcases harr : seg.arrival with _ | a <;>
      rcases hdep : seg.departure with _ | d <;>
      simp [run_seg, harr, hdep, hcur0, hocc0, canonActs, hg1, hg2, ht2, hz, hzp]
  · rcases harr : seg.arrival with _ | a <;>
      rcases hdep : seg.departure with _ | d <;>
      (intro e he
       simp only [run_seg, harr, hdep, hcur0, hocc0] at he
       simp [hg1, hz, hzp] at he
       casesm* _ ∨ _ <;>
         first
           | exact hg3 _ e ‹_›
           | exact ht3 _ _ _ _ e ‹_›
           | (subst_vars; rfl))
  · rcases harr : seg.arrival with _ | a <;>
      rcases hdep : seg.departure with _ | d <;>
      (intro e he
       simp only [run_seg, harr, hdep, hcur0, hocc0] at he
       simp [hg1, hz, hzp, ht1] at he
       casesm* _ ∨ _ <;>
         first
           | exact hgocc _ e ‹_›
           | exact htocc _ _ _ _ e ‹_›
           | (subst_vars
              intro hob
              by_cases hcp : seg.comp = compAt cfg p <;>
                simp [OccSpec, inGrantWindow, hcomp, hcp, hz, hzp]))
  · rcases harr : seg.arrival with _ | a <;>
      rcases hdep : seg.departure with _ | d <;>
      (simp only [run_seg, harr, hdep, hcur0, hocc0]
       simp only [hg1, hz, ht1, hzp]
       refine BInv_succ cfg (p + 1) _ _ _ _ rfl
         (by by_cases hcp : seg.comp = compAt cfg p <;> simp [hcp, hcomp]) ?_ ?_
       · intro z
         by_cases hzzz : z = zz
         · subst hzzz
           simp [bezSet_same]
         · simp [bezSet_other _ _ _ _ hzzz, hq]
       · intro z
         by_cases hzzz : z = zz
         · subst hzzz
           simp [bezSet_same, hcomp, hz]
         · simp only [bezSet_other _ _ _ _ hzzz]
           rw [hbo0 z, hzp, hcomp, hz]
           exact iff_of_false (by simp) (fun hcon => hzzz (by simpa using hcon.symm)))
  · rcases harr : seg.arrival with _ | a <;>
      rcases hdep : seg.departure with _ | d <;>
      simp [run_seg, harr, hdep, hcur0, hocc0, canonActs, hg1, hg2, ht2, hz, hzp]
  · rcases harr : seg.arrival with _ | a <;>
      rcases hdep : seg.departure with _ | d <;>
      (intro e he
       simp only [run_seg, harr, hdep, hcur0, hocc0] at he
       simp [hg1, hz, hzp] at he
       casesm* _ ∨ _ <;>
         first
           | exact hg3 _ e ‹_›
           | exact ht3 _ _ _ _ e ‹_›
           | (subst_vars; rfl))
  · rcases harr : seg.arrival with _ | a <;>
      rcases hdep : seg.departure with _ | d <;>
      (intro e he
       simp only [run_seg, harr, hdep, hcur0, hocc0] at he
       simp [hg1, hz, hzp, ht1] at he
       casesm* _ ∨ _ <;>
         first
           | exact hgocc _ e ‹_›
           | exact htocc _ _ _ _ e ‹_›
           | (subst_vars
              intro hob
              by_cases hcp : seg.comp = compAt cfg p <;>
                simp [OccSpec, inGrantWindow, hcomp, hcp, hz, hzp]))
  · rcases harr : seg.arrival with _ | a <;>
      rcases hdep : seg.departure with _ | d <;>
      (simp only [run_seg, harr, hdep, hcur0, hocc0]
       simp only [hg1, hz, ht1, hzp]
       by_cases hzzzp : zz = zp
       · subst hzzzp
         simp only [bez_release_agent, if_pos rfl, bezSet_self]
         refine BInv_succ cfg (p + 1) _ _ _ _ rfl
           (by by_cases hcp : seg.comp = compAt cfg p <;> simp [hcp, hcomp]) ?_ ?_
         · intro z
           by_cases hzzz : z = zz
           · subst hzzz
             simp [bezSet_same]
           · simp [bezSet_other _ _ _ _ hzzz, hq]
         · intro z
           by_cases hzzz : z = zz
           · subst hzzz
             simp [bezSet_same, hcomp, hz]
           · simp only [bezSet_other _ _ _ _ hzzz]
             rw [hbo0 z, hzp, hcomp, hz]
       · have hpz : ¬(zp = zz) := fun h => hzzzp h.symm
         simp only [bez_release_agent,
           show ((some zz = some zp) = False) from by simp [hzzzp],
           if_false, bezSet_other _ _ _ _ hpz]
         refine BInv_succ cfg (p + 1) _ _ _ _ rfl
           (by by_cases hcp : seg.comp = compAt cfg p <;> simp [hcp, hcomp]) ?_ ?_
         · intro z
           by_cases hzzp : z = zp
           · subst hzzp
             simp [bezSet_same, hq]
           · by_cases hzzz : z = zz
             · subst hzzz
               simp [bezSet_other _ _ _ _ hzzp, bezSet_same]
             · simp [bezSet_other _ _ _ _ hzzp, bezSet_other _ _ _ _ hzzz, hq]
         · intro z
           by_cases hzzp : z = zp
           · subst hzzp
             rw [hcomp, hz]
             simp [bezSet_same]
             exact fun hcon => hzzzp hcon
           · by_cases hzzz : z = zz
             · subst hzzz
               simp [bezSet_other _ _ _ _ hzzp, bezSet_same, hcomp, hz]
             · simp only [bezSet_other _ _ _ _ hzzp, bezSet_other _ _ _ _ hzzz]
               rw [hbo0 z, hzp, hcomp, hz]
               exact iff_of_false (fun hcon => hzzp (by simpa using hcon.symm))
                 (fun hcon => hzzz (by simpa using hcon.symm)))
  · rcases harr : seg.arrival with _ | a <;>
      rcases hdep : seg.departure with _ | d <;>
      simp [run_seg, harr, hdep, hcur0, hocc0, canonActs, hg1, hg2, ht2, hz, hzp]
  · rcases harr : seg.arrival with _ | a <;>
      rcases hdep : seg.departure with _ | d <;>
      (intro e he
       simp only [run_seg, harr, hdep, hcur0, hocc0] at he
       simp [hg1, hz, hzp] at he
       casesm* _ ∨ _ <;>
         first
           | exact hg3 _ e ‹_›
           | exact ht3 _ _ _ _ e ‹_›
           | (subst_vars; rfl))
  · rcases harr : seg.arrival with _ | a <;>
      rcases hdep : seg.departure with _ | d <;>
      (intro e he
       simp only [run_seg, harr, hdep, hcur0, hocc0] at he
       simp [hg1, hz, hzp, ht1] at he
       casesm* _ ∨ _ <;>
         first
           | exact hgocc _ e ‹_›
           | exact htocc _ _ _ _ e ‹_›
           | (subst_vars
              intro hob
              by_cases hcp : seg.comp = compAt cfg p <;>
                simp [OccSpec, inGrantWindow, hcomp, hcp, hz, hzp]))



end Spur
namespace Spur

theorem run_seg_master (cfg : TrainCfg) (i : Nat) (seg : Seg) (st : TState)
    (hseg : cfg.segs.get? i = some seg)
    (hinv : BoundaryInv cfg i st) :
    BoundaryInv cfg (i + 1) (run_seg cfg i seg st).1
    ∧ (run_seg cfg i seg st).2.map TEvt.act = canonActs cfg i seg
    ∧ (∀ e ∈ (run_seg cfg i seg st).2, e.segIdx = i)
    ∧ (∀ e ∈ (run_seg cfg i seg st).2, observable e = true → OccSpec cfg e) := by
  cases i with
  | zero => exact run_seg_master0 cfg seg st hseg hinv
  | succ p => exact run_seg_masterS cfg p seg st hseg hinv

theorem run_segs_master (cfg : TrainCfg) :
    ∀ (l : List Seg) (i : Nat) (st : TState),
      cfg.segs.drop i = l →
      BoundaryInv cfg i st →
      BoundaryInv cfg (i + l.length) (run_segs cfg i l st).1
      ∧ (∀ k seg, l.get? k = some seg →
          ((run_segs cfg i l st).2.filter (fun e => e.segIdx = i + k)).map TEvt.act
            = canonActs cfg (i + k) seg)
      ∧ (∀ e ∈ (run_segs cfg i l st).2, i ≤ e.segIdx ∧ e.segIdx < i + l.length)
      ∧ (∀ e ∈ (run_segs cfg i l st).2, observable e = true → OccSpec cfg e)
      ∧ (∀ lseg, l.getLast? = some lseg →
          ∃ pre, (run_segs cfg i l st).2.map TEvt.act
            = pre ++ canonActs cfg (i + l.length - 1) lseg) := by
  intro l
  induction l with
  | nil =>
    intro i st hdrop hinv
    refine ⟨by simpa using hinv, by simp [run_segs], by simp [run_segs],
      by simp [run_segs], by simp⟩
  | cons seg rest ih =>
    intro i st hdrop hinv
    have hseg : cfg.segs.get? i = some seg := by
      have := List.get?_drop cfg.segs i 0
      rw [Nat.add_zero] at this
      rw [← this, hdrop]
      rfl
    have hdrop2 : cfg.segs.drop (i + 1) = rest := by
      rw [← List.tail_drop, hdrop]
      rfl
    obtain ⟨hm1, hm2, hm3, hm4⟩ := run_seg_master cfg i seg st hseg hinv
    obtain ⟨hi1, hi2, hi3, hi4⟩ :=
      ih (i + 1) (run_seg cfg i seg st).1 hdrop2 hm1
    have hi5 := hi4.2
    have hi4' := hi4.1
    have hunf : (run_segs cfg i (seg :: rest) st).2
        = (run_seg cfg i seg st).2
          ++ (run_segs cfg (i + 1) rest (run_seg cfg i seg st).1).2 := rfl
    refine ⟨?_, ?_, ?_, ?_, ?_⟩
    · rw [show i + (seg :: rest).length = (i + 1) + rest.length from by
        simp
        omega]
      exact hi1
    · intro k s2 hk
      rw [hunf, List.filter_append]
      cases k with
      | zero =>
        simp only [List.get?] at hk
        have hk2 : seg = s2 := by simpa using hk
        subst hk2
        rw [List.filter_eq_self.mpr (fun e he => by simp [hm3 e he])]
        rw [List.filter_eq_nil.mpr (fun e he => by
          have := (hi3 e he).1
          simp only [decide_eq_true_eq]
          omega)]
        simpa using hm2
      | succ k2 =>
        rw [List.filter_eq_nil.mpr (fun e he => by
          rw [hm3 e he]
          simp)]
        have := hi2 k2 s2 (by simpa using hk)
        rw [show i + (k2 + 1) = (i + 1) + k2 from by omega]
        simpa using this
    · intro e he
      rw [hunf] at he
      show i ≤ e.segIdx ∧ e.segIdx < i + (rest.length + 1)
      rcases List.mem_append.mp he with h | h
      · rw [hm3 e h]
        omega
      · have := hi3 e h
        omega
    · intro e he
      rw [hunf] at he
      rcases List.mem_append.mp he with h | h
      · exact hm4 e h
      · exact hi4' e h
    · intro lseg hlast
      by_cases hre : rest = []
      · subst hre
        have hl : seg = lseg := by simpa using hlast
        subst hl
        refine ⟨[], ?_⟩
        rw [hunf]
        simp only [run_segs, List.append_nil]
        simpa using hm2
      · obtain ⟨r2, rs, hre2⟩ := List.exists_cons_of_ne_nil hre
        have hlast2 : rest.getLast? = some lseg := by
          rw [hre2] at hlast ⊢
          simpa using hlast
        obtain ⟨pre2, hpre2⟩ := hi5 lseg hlast2
        refine ⟨(run_seg cfg i seg st).2.map TEvt.act ++ pre2, ?_⟩
        rw [hunf, List.map_append, hpre2]
        rw [show i + (seg :: rest).length - 1 = (i + 1) + rest.length - 1 from by
          simp]
        simp [List.append_assoc]

end Spur
namespace Spur

/-- The boundary invariant holds at the initial state. -/
theorem boundaryInv_init (cfg : TrainCfg) : BoundaryInv cfg 0 initTState := by
  refine ⟨rfl, rfl, fun z => rfl, fun z => ?_⟩
  simp [initTState]

/-- For a non-empty tour, `run_train` runs the loop from the initial state
and then appends exactly the final resource release and the idle marker,
both stamped with the last segment's index, without altering the state. -/
theorem run_train_master (cfg : TrainCfg) (n : Nat)
    (hlen : cfg.segs.length = n + 1) :
    (run_train cfg).1 = (run_segs cfg 0 cfg.segs initTState).1
    ∧ (run_train cfg).2
      = (run_segs cfg 0 cfg.segs initTState).2
        ++ [⟨.resRelease (compAt cfg n), n, (run_segs cfg 0 cfg.segs initTState).1⟩,
            ⟨.tourDone, n, (run_segs cfg 0 cfg.segs initTState).1⟩] := by
  have hm := (run_segs_master cfg cfg.segs 0 initTState rfl (boundaryInv_init cfg)).1
  have hcs : (run_segs cfg 0 cfg.segs initTState).1.currentSegment = some n := by
    have h1 := hm.1
    rw [hlen] at h1
    simpa using h1
  obtain ⟨a, l, hsegs⟩ : ∃ a l, cfg.segs = a :: l := by
    cases h : cfg.segs with
    | nil => rw [h] at hlen; simp at hlen
    | cons a l => exact ⟨a, l, rfl⟩
  have hlen2 : (a :: l).length - 1 = n := by
    rw [← hsegs, hlen]
    simp
  constructor
  · show (run_train cfg).1 = _
    unfold run_train
    rw [hsegs]
  · show (run_train cfg).2 = _
    unfold run_train
    rw [hsegs]
    show (run_segs cfg 0 (a :: l) initTState).2 ++ _ = _
    rw [← hsegs, hcs, hsegs, hlen2]


/-- The `acceptAgent` actions of one canonical iteration are exactly the
two admissions: first with the pre-transfer segment snapshot, then with
the new segment. -/
theorem filter_accept_canonActs (cfg : TrainCfg) (i : Nat) (seg : Seg) :
    (canonActs cfg i seg).filter isAcceptAct
      = [.acceptAgent seg.comp (if i = 0 then none else some (i - 1)),
         .acceptAgent seg.comp (some i)] := by
  rcases harr : seg.arrival with _ | a <;>
    rcases hco : collOf cfg seg.comp with _ | z <;>
      rcases hdep : seg.departure with _ | d <;>
        cases i with
        | zero => simp [canonActs, harr, hco, hdep, isAcceptAct]
        | succ p =>
          rcases hcp : collOf cfg (compAt cfg p) with _ | zp <;>
            simp [canonActs, harr, hco, hdep, hcp, isAcceptAct]

/-- A `releaseAgent` action inside a canonical iteration only ever targets
the previous segment's component, and only when there is one. -/
theorem releaseAgent_canonActs (cfg : TrainCfg) (k : Nat) (seg : Seg) (c : Nat)
    (hmem : TAct.releaseAgent c ∈ canonActs cfg k seg) :
    0 < k ∧ c = compAt cfg (k - 1) := by
  rcases harr : seg.arrival with _ | a <;>
    rcases hco : collOf cfg seg.comp with _ | z <;>
      rcases hdep : seg.departure with _ | d <;>
        cases k with
        | zero => simp [canonActs, harr, hco, hdep] at hmem
        | succ p =>
          rcases hcp : collOf cfg (compAt cfg p) with _ | zp <;>
            · simp [canonActs, harr, hco, hdep, hcp] at hmem
              exact ⟨Nat.succ_pos p, by simpa using hmem⟩

/-- Decomposition of a canonical iteration around its two `acceptAgent`
actions: the first precedes the grant resolution, the second follows the
release of the previous component and the `current_segment` update. -/
theorem canonActs_decomp (cfg : TrainCfg) (i : Nat) (seg : Seg) :
    ∃ l1 l2 l3, canonActs cfg i seg
      = l1 ++ [.acceptAgent seg.comp (if i = 0 then none else some (i - 1))]
        ++ l2 ++ [.acceptAgent seg.comp (some i)] ++ l3
      ∧ TAct.reqSucceed seg.comp ∈ l2
      ∧ TAct.setCurrent i ∈ l2
      ∧ (0 < i → TAct.releaseAgent (compAt cfg (i - 1)) ∈ l2) := by
  refine ⟨(match seg.arrival with | some _ => [TAct.timeoutArr] | none => [])
      ++ [.reqIssued seg.comp]
      ++ (match collOf cfg seg.comp with | some z => [TAct.collCanAccept z] | none => [])
      ++ [.userAppend seg.comp]
      ++ (match collOf cfg seg.comp with | some z => [TAct.collAccept z] | none => []),
    [.reqSucceed seg.comp]
      ++ (if 0 < i then
            (match collOf cfg (compAt cfg (i - 1)) with
             | some zp => [TAct.collRelease zp] | none => [])
              ++ [TAct.releaseAgent (compAt cfg (i - 1))]
          else [])
      ++ [.setCurrent i]
      ++ (match collOf cfg seg.comp with | some z => [TAct.collAccept z] | none => []),
    (if 0 < i then [TAct.resRelease (compAt cfg (i - 1))] else [])
      ++ [.timeoutDwell]
      ++ (match seg.departure with | some _ => [TAct.timeoutDep] | none => []),
    ?_, by simp, by simp, ?_⟩
  · simp [canonActs, List.append_assoc]
  · intro h
    rcases collOf cfg (compAt cfg (i - 1)) with _ | zp <;> simp [h]

/-- In the full `run_train` trace, the events of loop iteration `i` carry
exactly the canonical action sequence, possibly followed by the final
release and idle markers (which are never admissions). -/
theorem run_train_filter_canon (cfg : TrainCfg) (i : Nat) (seg : Seg)
    (hseg : cfg.segs.get? i = some seg) :
    ∃ extra, (((run_train cfg).2.filter (fun e => e.segIdx = i)).map TEvt.act)
        = canonActs cfg i seg ++ extra
      ∧ extra.filter isAcceptAct = [] := by
  have hlt : i < cfg.segs.length := by
    rcases Nat.lt_or_ge i cfg.segs.length with h | h
    · exact h
    · rw [List.get?_eq_none.mpr h] at hseg
      cases hseg
  obtain ⟨hA, hB⟩ := run_train_master cfg (cfg.segs.length - 1) (by omega)
  have h2 := (run_segs_master cfg cfg.segs 0 initTState rfl
    (boundaryInv_init cfg)).2.1 i seg hseg
  simp only [Nat.zero_add] at h2
  rw [hB, List.filter_append, List.map_append, h2]
  refine ⟨_, rfl, ?_⟩
  rw [List.filter_eq_nil]
  intro b hb
  simp only [List.mem_map, List.mem_filter] at hb
  obtain ⟨e, ⟨he, _⟩, hbe⟩ := hb
  simp only [List.mem_cons, List.mem_singleton] at he
  rcases he with he | he | he
  · simp [← hbe, he, isAcceptAct]
  · simp [← hbe, he, isAcceptAct]
  · cases he


/-- C2: At an observable tick the agent occupies exactly the component of
`current_segment` - refuted at both ends: before its first transfer the
agent occupies no component at all while its request is queued, and in the
grant window it occupies both the granted component and the previous one. -/
theorem c2_counterexample :
    ((run_train exCfg).2.map (fun e =>
        (e.act, observable e, e.post.currentSegment, e.post.occ))).get? 1
      = some (.reqIssued 0, true, none, [])
    ∧ ((run_train exCfg).2.map (fun e =>
        (e.act, observable e, e.post.currentSegment, e.post.occ))).get? 11
      = some (.reqSucceed 1, true, some 0, [0, 1])
    ∧ compAt exCfg 0 = 0 ∧ compAt exCfg 1 = 1
    ∧ ((run_train exCfg).2.map TEvt.act).getLast? = some .tourDone :=
  ⟨rfl, rfl, rfl, rfl, rfl⟩

/-- C2 (amended): at every observable suspension point of `Train.run` the
occupant sets satisfy the corrected presence invariant `OccSpec`: exactly
the current segment's component outside the grant window, nothing before
the first transfer, and both the granted and the previous component inside
the grant window. -/
theorem c2_presence_amended (cfg : TrainCfg) :
    ∀ e ∈ (run_train cfg).2, observable e = true → OccSpec cfg e := by
  intro e he hob
  cases hsegs : cfg.segs with
  | nil =>
    have hrt : (run_train cfg).2 = [⟨.panic, 0, initTState⟩] := by
      unfold run_train
      rw [hsegs]
    rw [hrt] at he
    simp only [List.mem_singleton] at he
    rw [he] at hob
    simp [observable] at hob
  | cons a l =>
    have hlen : cfg.segs.length = l.length + 1 := by rw [hsegs]; rfl
    obtain ⟨hA, hB⟩ := run_train_master cfg l.length hlen
    have hm := run_segs_master cfg cfg.segs 0 initTState rfl (boundaryInv_init cfg)
    rw [hB] at he
    rcases List.mem_append.mp he with h | h
    · exact hm.2.2.2.1 e h hob
    · have hinv := hm.1
      rw [hlen] at hinv
      have hcs : (run_segs cfg 0 cfg.segs initTState).1.currentSegment
          = some l.length := by simpa using hinv.1
      have hocc : (run_segs cfg 0 cfg.segs initTState).1.occ
          = [compAt cfg l.length] := by simpa using hinv.2.1
      simp only [List.mem_cons, List.mem_singleton] at h
      rcases h with h | h | h
      · rw [h] at hob
        simp [observable] at hob
      · rw [h]
        simp [OccSpec, inGrantWindow, hcs, hocc]
      · cases h

theorem c2_amended_witness :
    OccSpec exCfg ((run_train exCfg).2.get ⟨11, by decide⟩) :=
  c2_presence_amended exCfg _ (List.get_mem _ _ _) (by decide)

/-- C8: every admission during the tour calls `accept_agent` twice on the
entered component - once inside `_do_put`, with `current_segment` still the
previous segment (none on the first admission) and before the request
resolves, and once inside `transfer_to`, after `release_agent` on the
previous component and after `current_segment` has been updated. -/
theorem c8_double_accept (cfg : TrainCfg) (i : Nat) (seg : Seg)
    (hseg : cfg.segs.get? i = some seg) :
    (((run_train cfg).2.filter (fun e => e.segIdx = i)).map TEvt.act).filter isAcceptAct
      = [.acceptAgent seg.comp (if i = 0 then none else some (i - 1)),
         .acceptAgent seg.comp (some i)]
    ∧ ∃ l1 l2 l3,
        ((run_train cfg).2.filter (fun e => e.segIdx = i)).map TEvt.act
          = l1 ++ [.acceptAgent seg.comp (if i = 0 then none else some (i - 1))]
            ++ l2 ++ [.acceptAgent seg.comp (some i)] ++ l3
        ∧ TAct.reqSucceed seg.comp ∈ l2
        ∧ TAct.setCurrent i ∈ l2
        ∧ (0 < i → TAct.releaseAgent (compAt cfg (i - 1)) ∈ l2) := by
  obtain ⟨extra, heq, hext⟩ := run_train_filter_canon cfg i seg hseg
  constructor
  · rw [heq, List.filter_append, filter_accept_canonActs, hext, List.append_nil]
  · obtain ⟨l1, l2, l3, hdec, h1, h2, h3⟩ := canonActs_decomp cfg i seg
    exact ⟨l1, l2, l3 ++ extra,
      by rw [heq, hdec]; simp [List.append_assoc], h1, h2, h3⟩

theorem c8_witness :
    (((run_train exCfg).2.filter (fun e => e.segIdx = 1)).map TEvt.act).filter isAcceptAct
      = [.acceptAgent 1 (some 0), .acceptAgent 1 (some 1)]
    ∧ ∃ l1 l2 l3,
        ((run_train exCfg).2.filter (fun e => e.segIdx = 1)).map TEvt.act
          = l1 ++ [.acceptAgent 1 (some 0)]
            ++ l2 ++ [.acceptAgent 1 (some 1)] ++ l3
        ∧ TAct.reqSucceed 1 ∈ l2
        ∧ TAct.setCurrent 1 ∈ l2
        ∧ (0 < 1 → TAct.releaseAgent (compAt exCfg 0) ∈ l2) :=
  c8_double_accept exCfg 1 ⟨1, none, none⟩ rfl

/-- C9: once the tour ends, only the final segment's resource request is
released: the agent stays attached to the final segment, its uid stays in
the final component's occupant map, `release_agent` is never invoked on the
final component (components assumed distinct), the final component's
`BlockExclusiveZone`, if any, stays occupied, and the trace ends with the
final iteration followed by exactly the resource release and the idle
marker. -/
theorem c9_final_segment (cfg : TrainCfg) (n : Nat) (lseg : Seg)
    (hlen : cfg.segs.length = n + 1)
    (hlast : cfg.segs.get? n = some lseg)
    (hdist : ∀ j, j < n → compAt cfg j ≠ compAt cfg n) :
    (run_train cfg).1.currentSegment = some n
    ∧ (run_train cfg).1.occ = [compAt cfg n]
    ∧ (∀ z, collOf cfg (compAt cfg n) = some z →
        ((run_train cfg).1.bez z).occupied = true)
    ∧ TAct.releaseAgent (compAt cfg n) ∉ (run_train cfg).2.map TEvt.act
    ∧ ∃ pre, (run_train cfg).2.map TEvt.act
        = pre ++ canonActs cfg n lseg
          ++ [.resRelease (compAt cfg n), .tourDone] := by
  obtain ⟨hA, hB⟩ := run_train_master cfg n hlen
  have hm := run_segs_master cfg cfg.segs 0 initTState rfl (boundaryInv_init cfg)
  have hinv := hm.1
  rw [hlen] at hinv
  have hcs : (run_segs cfg 0 cfg.segs initTState).1.currentSegment = some n := by
    simpa using hinv.1
  have hocc : (run_segs cfg 0 cfg.segs initTState).1.occ = [compAt cfg n] := by
    simpa using hinv.2.1
  refine ⟨by rw [hA, hcs], by rw [hA, hocc], ?_, ?_, ?_⟩
  · intro z hz
    rw [hA]
    refine ((hinv.2.2.2 z).mpr ⟨by omega, ?_⟩)
    simpa using hz
  · intro hmem
    rw [hB, List.map_append, List.mem_append] at hmem
    rcases hmem with hmem | hmem
    · simp only [List.mem_map] at hmem
      obtain ⟨e, he, hact⟩ := hmem
      have hbnd := (hm.2.2.1 e he).2
      rw [hlen] at hbnd
      have hk : e.segIdx < n + 1 := by omega
      obtain ⟨segk, hsegk⟩ : ∃ s, cfg.segs.get? e.segIdx = some s :=
        ⟨_, List.get?_eq_get (by omega)⟩
      have hfi := hm.2.1 e.segIdx segk hsegk
      simp only [Nat.zero_add] at hfi
      have hin : e.act ∈ (List.filter (fun e2 => decide (e2.segIdx = e.segIdx))
          (run_segs cfg 0 cfg.segs initTState).2).map TEvt.act :=
        List.mem_map.mpr ⟨e, List.mem_filter.mpr ⟨he, by simp⟩, rfl⟩
      rw [hfi, hact] at hin
      obtain ⟨hpos, hcc⟩ := releaseAgent_canonActs cfg e.segIdx segk _ hin
      exact hdist (e.segIdx - 1) (by omega) hcc.symm
    · simp at hmem
  · have hl2 : cfg.segs.getLast? = some lseg := by
      rw [List.getLast?_eq_get?, hlen]
      simpa using hlast
    obtain ⟨pre, hpre⟩ := hm.2.2.2.2 lseg hl2
    rw [hlen] at hpre
    simp only [Nat.zero_add, Nat.add_sub_cancel] at hpre
    refine ⟨pre, ?_⟩
    rw [hB, List.map_append, hpre]
    simp [List.append_assoc]

theorem c9_witness :
    (run_train exCfgBez).1.currentSegment = some 1
    ∧ (run_train exCfgBez).1.occ = [compAt exCfgBez 1]
    ∧ (∀ z, collOf exCfgBez (compAt exCfgBez 1) = some z →
        ((run_train exCfgBez).1.bez z).occupied = true)
    ∧ TAct.releaseAgent (compAt exCfgBez 1) ∉ (run_train exCfgBez).2.map TEvt.act
    ∧ ∃ pre, (run_train exCfgBez).2.map TEvt.act
        = pre ++ canonActs exCfgBez 1 ⟨1, none, some 90⟩
          ++ [.resRelease (compAt exCfgBez 1), .tourDone] :=
  c9_final_segment exCfgBez 1 ⟨1, none, some 90⟩ rfl rfl
    (by
      intro j hj
      have hj0 : j = 0 := by omega
      rw [hj0]
      decide)

end Spur
